import Mathlib

/-!
Verification development for the Monado binding-profile compiler
(`src/xrt/state_trackers/oxr/oxr_bindings/oxr_bindings.py` and
`src/xrt/state_trackers/steamvr_drv/steamvr_bindings/ovrd_bindings.py`).

The two Python scripts compile a loaded `Bindings` object (interaction
profiles, components, identifiers, availability conditions) into generated
C source: length-bucketed, availability-guarded string verification
functions and static `profile_template` tables.

The data-model loader (`bindings.py`, imported by both scripts via
`from bindings import *`) is not part of this repository's sources; the
entities it provides (`Profile`, `Component`, `Identifier`, `FeatureSet`,
`Availability`, `Bindings`) and its helper functions
(`is_valid_version`, `find_component_in_list_by_name`) are modelled here
from the specification, and are marked as such in their doc comments.
Everything else is translated directly from the two Python sources.
-/

/-- Modelled from the spec: `FeatureSet` (from the absent `bindings` module)
is "an atomic availability condition = optional minimum version + a set of
required extension names". The version is an optional (major, minor) pair;
the extension set is modelled as a list of extension names. -/
structure FeatureSet where
  required_version : Option (Nat × Nat)
  required_extensions : List String
deriving DecidableEq, Repr

/-- Modelled from the spec: `is_valid_version` (from the absent `bindings`
module) reports whether an optional major.minor pair is present. -/
def is_valid_version (v : Option (Nat × Nat)) : Bool :=
  v.isSome

/-- String comparison used to mirror Python's `sorted` on strings. -/
def strLe (a b : String) : Prop := a ≤ b

instance : DecidableRel strLe := fun a b => inferInstanceAs (Decidable (a ≤ b))

instance : IsTotal String strLe := ⟨fun a b => le_total a b⟩

instance : IsTrans String strLe := ⟨fun _ _ _ h h' => le_trans h h'⟩

/-- Modelled from the spec: `FeatureSet.as_tuple` (from the absent
`bindings` module) is the sort key making feature sets "comparable/orderable
(for deterministic code generation)"; any total order satisfies the spec, so
we take the lexicographic order on (version-present tag, major, minor,
sorted extension names joined by commas). -/
def FeatureSet.as_tuple (fs : FeatureSet) : Lex (Nat × Lex (Nat × Lex (Nat × String))) :=
  toLex ((match fs.required_version with | none => 0 | some _ => 1),
    toLex ((fs.required_version.map Prod.fst).getD 0,
      toLex ((fs.required_version.map Prod.snd).getD 0,
        String.intercalate "," (List.insertionSort strLe fs.required_extensions))))

/-- Order on feature sets induced by the `as_tuple` key, mirroring
`sorted(availability.feature_sets, key=FeatureSet.as_tuple)`. -/
def fsLe (a b : FeatureSet) : Prop := a.as_tuple ≤ b.as_tuple

instance : DecidableRel fsLe := fun a b => inferInstanceAs (Decidable (a.as_tuple ≤ b.as_tuple))

instance : IsTotal FeatureSet fsLe := ⟨fun a b => le_total _ _⟩

instance : IsTrans FeatureSet fsLe := ⟨fun _ _ _ h h' => le_trans h h'⟩

/-- Modelled from the spec: a `FeatureSet` intersection is the conjunction
of the two availability conditions ("a binding inherited from an ancestor
is only valid when both the descendant's gating condition and the
ancestor's own gating condition hold"): the larger minimum version and the
union of the required extension sets. -/
def FeatureSet.intersection (a b : FeatureSet) : FeatureSet :=
  { required_version :=
      match a.required_version, b.required_version with
      | none, v => v
      | v, none => v
      | some (ma, mi), some (mb, mj) =>
          if ma < mb ∨ (ma = mb ∧ mi < mj) then some (mb, mj) else some (ma, mi)
    required_extensions := a.required_extensions ∪ b.required_extensions }

/-- Modelled from the spec: `Availability` is "a set of FeatureSets
representing available if ANY one of these feature sets holds";
`availability.intersection(parent_availability)` "computes pairwise
intersections of feature sets from two Availabilities". The set is
modelled as a list and deduplicated as a Python set would be. -/
def availIntersection (a b : List FeatureSet) : List FeatureSet :=
  (a.bind (fun fa => b.map (fun fb => fa.intersection fb))).dedup

/-- Modelled from the spec: a `dpad_emulation` mapping on a component,
optionally "naming an activate component by identifier". -/
structure DpadEmulationDesc where
  activate : Option String
deriving DecidableEq, Repr

/-- Modelled from the spec: `Component` (from the absent `bindings`
module) — "one controller element belonging to a profile".  The methods
`is_input()` / `is_output()` ("a component's role is directional") are
modelled as boolean fields, `get_full_openxr_paths()` as the stored list
`full_openxr_paths`, and the identifier name used by
`find_component_in_list_by_name` as the field `identifier_name`. -/
structure Component where
  component_name : String
  subaction_path : String
  steamvr_path : String
  subpath_localized_name : String
  monado_binding : Option String
  dpad_emulation : Option DpadEmulationDesc
  identifier_json_path : String
  identifier_name : String
  full_openxr_paths : List String
  input_role : Bool
  output_role : Bool
deriving DecidableEq, Repr

/-- Modelled from the spec: an `Identifier`'s optional `dpad` descriptor
with "paths (the four directional full OpenXR path strings),
`position_component`, and an optional `activate_component`". -/
structure DpadDesc where
  paths : List String
  position_component : Component
  activate_component : Option Component
deriving DecidableEq, Repr

/-- Modelled from the spec: `Identifier` — "a higher-level named path
grouping", optionally carrying a dpad descriptor. -/
structure Identifier where
  subaction_path : String
  dpad : Option DpadDesc
deriving DecidableEq, Repr

/-- Modelled from the spec: `Profile` (from the absent `bindings` module).
`feature_sets` holds the feature sets of `profile.availability()`;
the three `*_by_length` dictionaries map entry length to the list of
entries of that length, modelled as association lists. Parent profiles
form a DAG; the traversal unfolds it per distinct path, so the in-memory
sharing is modelled by a tree. -/
inductive Profile where
  | mk
    (name : String)
    (localized_name : String)
    (validation_func_name : String)
    (monado_device_enum : String)
    (extension_name : Option String)
    (openxr_version_promoted : Option (Nat × Nat))
    (feature_sets : List FeatureSet)
    (parent_profiles : Option (List Profile))
    (components : List Component)
    (identifiers : List Identifier)
    (subpaths_by_length : List (Nat × List String))
    (dpad_paths_by_length : List (Nat × List String))
    (dpad_emulators_by_length : List (Nat × List String))

def Profile.name : Profile → String
  | .mk n _ _ _ _ _ _ _ _ _ _ _ _ => n

def Profile.localized_name : Profile → String
  | .mk _ l _ _ _ _ _ _ _ _ _ _ _ => l

def Profile.validation_func_name : Profile → String
  | .mk _ _ v _ _ _ _ _ _ _ _ _ _ => v

def Profile.monado_device_enum : Profile → String
  | .mk _ _ _ e _ _ _ _ _ _ _ _ _ => e

def Profile.extension_name : Profile → Option String
  | .mk _ _ _ _ e _ _ _ _ _ _ _ _ => e

def Profile.openxr_version_promoted : Profile → Option (Nat × Nat)
  | .mk _ _ _ _ _ v _ _ _ _ _ _ _ => v

def Profile.feature_sets : Profile → List FeatureSet
  | .mk _ _ _ _ _ _ fs _ _ _ _ _ _ => fs

def Profile.parent_profiles : Profile → Option (List Profile)
  | .mk _ _ _ _ _ _ _ pp _ _ _ _ _ => pp

def Profile.components : Profile → List Component
  | .mk _ _ _ _ _ _ _ _ c _ _ _ _ => c

def Profile.identifiers : Profile → List Identifier
  | .mk _ _ _ _ _ _ _ _ _ i _ _ _ => i

def Profile.subpaths_by_length : Profile → List (Nat × List String)
  | .mk _ _ _ _ _ _ _ _ _ _ s _ _ => s

def Profile.dpad_paths_by_length : Profile → List (Nat × List String)
  | .mk _ _ _ _ _ _ _ _ _ _ _ d _ => d

def Profile.dpad_emulators_by_length : Profile → List (Nat × List String)
  | .mk _ _ _ _ _ _ _ _ _ _ _ _ d => d

/-- Modelled from the spec: `profile.availability()` "returns the
profile's own Availability". -/
def Profile.availability (p : Profile) : List FeatureSet := p.feature_sets

/-- Order on profiles by name, mirroring
`sorted(profile.parent_profiles, key=attrgetter("name"))`. -/
def profLe (a b : Profile) : Prop := a.name ≤ b.name

instance : DecidableRel profLe := fun a b => inferInstanceAs (Decidable (a.name ≤ b.name))

instance : IsTotal Profile profLe := ⟨fun a b => le_total _ _⟩

instance : IsTrans Profile profLe := ⟨fun _ _ _ h h' => le_trans h h'⟩

/-- Order on bucket keys (entry lengths), mirroring
`sorted(dict_of_lists.keys())`. -/
def natLe (a b : Nat) : Prop := a ≤ b

instance : DecidableRel natLe := fun a b => inferInstanceAs (Decidable (a ≤ b))

instance : IsTotal Nat natLe := ⟨fun a b => le_total a b⟩

instance : IsTrans Nat natLe := ⟨fun _ _ _ h h' => le_trans h h'⟩

/-! ## The generated verification code

The verification functions emitted by `oxr_bindings.py` are modelled as
lists of structured lines (`Line`), abstracting the textual layout (tab
characters, brace style) which the spec places out of scope, but keeping
the exact sequence and nesting of guards, preprocessor directives, switch
cases, and string comparisons. -/

/-- One emitted line of a generated verification function. -/
inductive Line where
  /-- The comment line `// generated from: <profile_name>`. -/
  | comment (profile_name : String)
  /-- The guard `if (openxr_version >= XR_MAKE_VERSION(major, minor, 0))` with its opening brace. -/
  | vIf (major minor : Nat)
  /-- The directive `#if defined(OXR_HAVE_e1) && defined(OXR_HAVE_e2) ...`. -/
  | ppIf (exts : List String)
  /-- The guard `if (exts->e1 && exts->e2 ...)` with its opening brace. -/
  | extIf (exts : List String)
  /-- The line `switch (length)` with its opening brace. -/
  | switchOpen
  /-- The line `case n:`. -/
  | caseOpen (n : Nat)
  /-- The comparison `if (strcmp(str, "path") == 0)` returning true on match (an `else if` for the non-first candidates). -/
  | strcmpRet (path : String)
  /-- The closing brace and `break;` ending a case. -/
  | caseClose
  /-- The line `default: break;`. -/
  | defaultBreak
  /-- The closing brace of the switch. -/
  | switchClose
  /-- The closing brace of a version or extension `if`. -/
  | close
  /-- The directive `#endif // defined(OXR_HAVE_e1) ...`. -/
  | ppEndif (exts : List String)
deriving DecidableEq, Repr

/-- The keys of a length-to-entries dictionary (`dict_of_lists.keys()`);
Python dict keys are unique, hence the deduplication. -/
def dictKeys (d : List (Nat × List String)) : List Nat :=
  (d.map Prod.fst).dedup

/-- Dictionary lookup (`dict_of_lists[length]`). -/
def dictGet (d : List (Nat × List String)) (k : Nat) : List String :=
  match d.find? (fun kv => kv.1 == k) with
  | some kv => kv.2
  | none => []

/-- The candidate strings emitted for one `case` of the length switch:
`sorted(dict_of_lists[length])`. -/
def caseCandidates (d : List (Nat × List String)) (k : Nat) : List String :=
  List.insertionSort strLe (dictGet d k)

/-- Translated from `get_verify_switch_body` (oxr_bindings.py:13-38):
a `switch (length)` with one `case` per key in ascending order, each case
comparing the candidates of that length in sorted order and returning
true on match, plus a `default: break;`. -/
def get_verify_switch_body (d : List (Nat × List String)) : List Line :=
  [Line.switchOpen] ++
  (List.insertionSort natLe (dictKeys d)).flatMap
    (fun len => Line.caseOpen len :: (caseCandidates d len).map Line.strcmpRet ++ [Line.caseClose]) ++
  [Line.defaultBreak, Line.switchClose]

/-- The lines emitted by one iteration of the feature-set loop of
`get_verify_func_switch` (oxr_bindings.py:56-82): an optional runtime
version guard, an optional preprocessor-plus-runtime extension guard, the
switch body, and the closing braces in reverse order (the extension close
and `#endif` first, then the version close). -/
def featureSetLines (d : List (Nat × List String)) (fs : FeatureSet) : List Line :=
  let exts := List.insertionSort strLe fs.required_extensions
  (match fs.required_version with
   | some (ma, mi) => [Line.vIf ma mi]
   | none => []) ++
  (if fs.required_extensions.isEmpty then []
   else [Line.ppIf exts, Line.extIf exts]) ++
  get_verify_switch_body d ++
  (if fs.required_extensions.isEmpty then []
   else [Line.close, Line.ppEndif exts]) ++
  (match fs.required_version with
   | some _ => [Line.close]
   | none => [])

/-- Translated from `get_verify_func_switch` (oxr_bindings.py:40-84):
nothing when the dictionary is empty; otherwise a comment naming the
originating profile followed by one alternative guard block per feature
set, the feature sets sorted by `FeatureSet.as_tuple`. -/
def get_verify_func_switch (d : List (Nat × List String)) (profile_name : String)
    (availability : List FeatureSet) : List Line :=
  if d.isEmpty then []
  else
    Line.comment profile_name ::
    (List.insertionSort fsLe availability).flatMap (featureSetLines d)

/-- Which of the three per-profile dictionaries a verification function
reads (`dict_name` in the Python source). -/
inductive DictSel where
  | subpaths
  | dpad_paths
  | dpad_emulators
deriving DecidableEq, Repr

/-- The lookup `getattr(profile, dict_name)`. -/
def selDict (sel : DictSel) (p : Profile) : List (Nat × List String) :=
  match sel with
  | .subpaths => p.subpaths_by_length
  | .dpad_paths => p.dpad_paths_by_length
  | .dpad_emulators => p.dpad_emulators_by_length

theorem sizeOf_lt_of_mem_parents {p : Profile} {pps : List Profile} {pp : Profile}
    (hpp : p.parent_profiles = some pps) (hmem : pp ∈ pps) : sizeOf pp < sizeOf p := by
  have hlt : sizeOf pp < sizeOf pps := List.sizeOf_lt_of_mem hmem
  cases p with
  | mk n l v e en ov fs par c i s d de =>
    simp only [Profile.parent_profiles] at hpp
    subst hpp
    simp only [Profile.mk.sizeOf_spec, Option.some.sizeOf_spec]
    omega

/-- Translated from `get_verify_func_body` (oxr_bindings.py:86-98):
emit the profile's own guarded switch under the accumulated availability,
then recurse into the parent profiles in ascending name order, each with
the availability intersected with that parent's own availability. -/
def get_verify_func_body (p : Profile) (sel : DictSel) (availability : List FeatureSet) :
    List Line :=
  get_verify_func_switch (selDict sel p) p.name availability ++
  (match hpp : p.parent_profiles with
   | none => []
   | some pps =>
     (List.insertionSort profLe pps).attach.flatMap
       (fun x =>
         have : sizeOf x.1 < sizeOf p :=
           sizeOf_lt_of_mem_parents hpp ((List.mem_insertionSort profLe).mp x.2)
         get_verify_func_body x.1 sel (availIntersection availability x.1.availability)))
termination_by sizeOf p

/-- Translated from `get_verify_func` (oxr_bindings.py:101-117): the full
function body; the final `return false;` is implicit in the run model
(`runLines` yields `false` when no comparison matched). -/
def get_verify_func (p : Profile) (sel : DictSel) : List Line :=
  get_verify_func_body p sel p.availability

/-! ## Run-time semantics of the generated code

The generated functions are compiled C; their semantics is modelled by a
preprocessing pass (`preprocess`, the role of the C preprocessor on the
emitted `#if defined(OXR_HAVE_*)` regions) followed by a line interpreter
(`runLines`) that tracks the active guard conditions and the current
switch case, returns `true` at the first successful string comparison,
and counts the `strcmp` calls executed. -/

/-- The macro `XR_MAKE_VERSION(major, minor, 0)`: the packed 64-bit OpenXR version
(major in bits 48-63, minor in bits 32-47, patch in bits 0-31). -/
def XR_MAKE_VERSION (major minor : Nat) : Nat :=
  major * 2 ^ 48 + minor * 2 ^ 32

/-- The runtime inputs of a generated path-verification function:
the negotiated (packed) OpenXR version, the set of extensions the runtime
has enabled (`exts->E` fields that are true), and the `str`/`length`
arguments. -/
structure VCtx where
  version : Nat
  enabledExts : List String
  str : String
  len : Nat

/-- Interpreter state: the stack of enclosing runtime guard conditions
(version / extension `if`s) and whether the current switch case matched
the `length` argument. -/
structure RunSt where
  guards : List Bool
  caseOn : Bool
deriving DecidableEq, Repr

/-- The state with no enclosing guard and no active case (function entry). -/
def RunSt.clean : RunSt := ⟨[], false⟩

/-- State update for a line that cannot return. Preprocessor directives
are no-ops at run time; comments are no-ops. -/
def stepLine (ctx : VCtx) (st : RunSt) : Line → RunSt
  | .vIf ma mi => { st with guards := decide (XR_MAKE_VERSION ma mi ≤ ctx.version) :: st.guards }
  | .extIf exts => { st with guards := exts.all (fun e => decide (e ∈ ctx.enabledExts)) :: st.guards }
  | .close => { st with guards := st.guards.tail }
  | .switchOpen => { st with caseOn := false }
  | .caseOpen n => { st with caseOn := decide (n = ctx.len) }
  | .caseClose => { st with caseOn := false }
  | .switchClose => { st with caseOn := false }
  | _ => st

/-- Run the emitted lines: a `strcmp` comparison executes when every
enclosing guard holds and the current case matched the length; it returns
`true` on equality, otherwise execution continues. Falling off the end is
the generated `return false;`. The second result counts executed
`strcmp` calls. -/
def runLines (ctx : VCtx) : List Line → RunSt → Bool × Nat × RunSt
  | [], st => (false, 0, st)
  | .strcmpRet p :: ls, st =>
    if st.guards.all id && st.caseOn then
      if p = ctx.str then (true, 1, st)
      else
        let r := runLines ctx ls st
        (r.1, r.2.1 + 1, r.2.2)
    else runLines ctx ls st
  | l :: ls, st => runLines ctx ls (stepLine ctx st l)

/-- The C preprocessor on the emitted lines: a region opened by
`#if defined(OXR_HAVE_e1) && ...` whose extensions are not all compiled
into the build is removed up to and including its `#endif`; everything
else is kept. The boolean flag is the "currently discarding" state. -/
def preprocessAux (compiled : List String) : List Line → Bool → List Line
  | [], _ => []
  | .ppIf exts :: ls, false =>
    if exts.all (fun e => decide (e ∈ compiled)) then .ppIf exts :: preprocessAux compiled ls false
    else preprocessAux compiled ls true
  | .ppEndif _ :: ls, true => preprocessAux compiled ls false
  | _ :: ls, true => preprocessAux compiled ls true
  | l :: ls, false => l :: preprocessAux compiled ls false

/-- Preprocess the emitted lines for a build with the given set of
compiled-in extensions (`OXR_HAVE_*` defines). -/
def preprocess (compiled : List String) (ls : List Line) : List Line :=
  preprocessAux compiled ls false

/-- The compiled verification function, end to end: preprocess the emitted
body for the build's compiled extensions, then run it on the runtime
inputs. Returns (result, number of string comparisons executed). -/
def runVerifyFunc (p : Profile) (sel : DictSel) (compiled : List String) (ctx : VCtx) :
    Bool × Nat :=
  let r := runLines ctx (preprocess compiled (get_verify_func p sel)) RunSt.clean
  (r.1, r.2.1)

/-! ## The ext-verify function -/

/-- One emitted statement of the `oxr_verify_*_ext` function body. -/
inductive ExtStmt where
  /-- The short-circuit `if (openxr_version >= XR_MAKE_VERSION(major, minor, 0))` setting both outputs to true and returning. -/
  | promotedCheck (major minor : Nat)
  /-- The block `#ifdef OXR_HAVE_e ... supported=true, enabled=extensions->e ... #else ... both false ... #endif`. -/
  | ifdefExt (e : String)
  /-- The assignments `*out_supported = true; *out_enabled = true;`. -/
  | setBothTrue
deriving DecidableEq, Repr

/-- Translated from the ext-verify part of `get_verify_functions`
(oxr_bindings.py:126-165): a promoted-version short-circuit when the
profile carries a valid promoted version, then either the
`#ifdef OXR_HAVE_<ext>` block (profile names an extension) or the
unconditional assignment of true to both outputs. -/
def get_verify_functions_ext (p : Profile) : List ExtStmt :=
  (match p.openxr_version_promoted with
   | some (ma, mi) => [ExtStmt.promotedCheck ma mi]
   | none => []) ++
  (match p.extension_name with
   | some e => [ExtStmt.ifdefExt e]
   | none => [ExtStmt.setBothTrue])

/-- Semantics of the generated ext-verify function for a build with the
given compiled extensions and a runtime with the given enabled extensions
and negotiated version: the resulting (out_supported, out_enabled). -/
def runExt (compiled enabled : List String) (version : Nat) : List ExtStmt → Bool × Bool
  | [] => (false, false)
  | .promotedCheck ma mi :: rest =>
    if XR_MAKE_VERSION ma mi ≤ version then (true, true)
    else runExt compiled enabled version rest
  | .ifdefExt e :: _ =>
    if compiled.contains e then (true, enabled.contains e) else (false, false)
  | .setBothTrue :: _ => (true, true)

/-! ## Template emission

Binding records and dpad records as emitted into the `profile_template`
array by `generate_bindings_c` (oxr_bindings.py) and
`ovrd_generate_bindings_c` (ovrd_bindings.py). Values are kept as the
strings printed into the C initializers; a Python `None` formats as the
string `None`. -/

/-- Python string formatting of an optional value (`f-string` of a
possibly-`None` attribute). -/
def pyStr : Option String → String
  | some s => s
  | none => "None"

/-- Modelled from the spec: `find_component_in_list_by_name` (from the
absent `bindings` module) searches "the profile's component list for one
whose identifier-name equals the value named ..., constrained to match
the same `subaction_path` and `identifier_json_path`" (matched "by
identifier-name, subaction path, and identifier-json-path jointly"). -/
def find_component_in_list_by_name (nm : String) (components : List Component)
    (subaction_path identifier_json_path : String) : Option Component :=
  components.find? (fun c =>
    c.identifier_name == nm &&
    c.subaction_path == subaction_path &&
    c.identifier_json_path == identifier_json_path)

/-- The content of one emitted `binding_template` initializer.
`values` is `none` when the component has no `monado_binding` (the
`.input` / `.dpad_activate` / `.output` fields are then left to C's
zero default by `generate_bindings_c` and written as explicit zeroes by
`ovrd_generate_bindings_c` only inside the truthy branch — in both
generators the falsy branch emits no value fields). -/
structure BindingTemplateRec where
  subaction_path : String
  steamvr_path : String
  localized_name : String
  paths : List String
  values : Option (String × String × String)
deriving DecidableEq, Repr

/-- The component names that get the component name appended to the
SteamVR path (oxr_bindings.py:214, ovrd_bindings.py:50). -/
def steamvr_suffix_names : List String :=
  ["click", "touch", "force", "value", "proximity"]

/-- The SteamVR path of a component with the component-name suffixing
applied, shared verbatim by both generators. -/
def steamvrPathOf (c : Component) : String :=
  if steamvr_suffix_names.contains c.component_name
  then c.steamvr_path ++ "/" ++ c.component_name
  else c.steamvr_path

/-- Resolution of the `dpad_activate` value of a component, as performed
by both generators: when the component carries a `dpad_emulation` with an
`activate` entry, look the named component up in the profile's component
list (same subaction path and identifier json path); an unresolvable
reference is a fatal generation error, otherwise the found component's
`monado_binding` is printed. Without a dpad emulation the value is the
default `0`. -/
def resolveDpadActivate (components : List Component) (c : Component) :
    Except String String :=
  match c.dpad_emulation with
  | some de =>
    match de.activate with
    | some nm =>
      match find_component_in_list_by_name nm components c.subaction_path c.identifier_json_path with
      | some ac => .ok (pyStr ac.monado_binding)
      | none => .error ("failed to find dpad activate component " ++ nm ++ " for " ++ c.subaction_path)
    | none => .ok "0"
  | none => .ok "0"

/-- Translated from the binding-template emission of `generate_bindings_c`
(oxr_bindings.py:210-264): the `.input`, `.dpad_activate` and `.output`
values start at `'0'` and are overridden from the component's
`monado_binding` according to its role; they are only emitted when
`component.monado_binding` is truthy. -/
def oxr_binding_record (components : List Component) (c : Component) :
    Except String BindingTemplateRec :=
  match c.monado_binding with
  | some mb =>
    (resolveDpadActivate components c).map (fun dpad_activate_value =>
      { subaction_path := c.subaction_path
        steamvr_path := steamvrPathOf c
        localized_name := c.subpath_localized_name
        paths := c.full_openxr_paths
        values := some
          ((if c.input_role then mb else "0"),
           dpad_activate_value,
           (if c.output_role then mb else "0")) })
  | none =>
    .ok
      { subaction_path := c.subaction_path
        steamvr_path := steamvrPathOf c
        localized_name := c.subpath_localized_name
        paths := c.full_openxr_paths
        values := none }

/-- Translated from the binding-template emission of
`ovrd_generate_bindings_c` (ovrd_bindings.py:46-94): the `.input`,
`.dpad_activate` and `.output` fields are written one by one, each with
an explicit `else`-branch writing `0`, all inside the
`if component.monado_binding:` branch. -/
def ovrd_binding_record (components : List Component) (c : Component) :
    Except String BindingTemplateRec :=
  match c.monado_binding with
  | some mb =>
    let input_value := if c.input_role then mb else "0"
    (resolveDpadActivate components c).map (fun dpad_activate_value =>
      let output_value := if c.output_role then mb else "0"
      { subaction_path := c.subaction_path
        steamvr_path := steamvrPathOf c
        localized_name := c.subpath_localized_name
        paths := c.full_openxr_paths
        values := some (input_value, dpad_activate_value, output_value) })
  | none =>
    .ok
      { subaction_path := c.subaction_path
        steamvr_path := steamvrPathOf c
        localized_name := c.subpath_localized_name
        paths := c.full_openxr_paths
        values := none }

/-- The content of one emitted `dpad_emulation` initializer. -/
structure DpadRec where
  subaction_path : String
  paths : List String
  position : String
  activate : String
deriving DecidableEq, Repr

/-- Translated from the dpad emission of `generate_bindings_c`
(oxr_bindings.py:268-297): identifiers with a truthy `dpad` produce a
record; the position is the printed `monado_binding` of the dpad's
position component, the activate is that of the activate component when
present, otherwise `0`. -/
def oxr_dpad_record (ident : Identifier) : Option DpadRec :=
  match ident.dpad with
  | none => none
  | some dp =>
    some
      { subaction_path := ident.subaction_path
        paths := dp.paths
        position := pyStr dp.position_component.monado_binding
        activate :=
          match dp.activate_component with
          | some ac => pyStr ac.monado_binding
          | none => "0" }

/-- Translated from the dpad emission of `ovrd_generate_bindings_c`
(ovrd_bindings.py:98-127), line for line the same shape as the oxr one. -/
def ovrd_dpad_record (ident : Identifier) : Option DpadRec :=
  match ident.dpad with
  | none => none
  | some dp =>
    some
      { subaction_path := ident.subaction_path
        paths := dp.paths
        position := pyStr dp.position_component.monado_binding
        activate :=
          match dp.activate_component with
          | some ac => pyStr ac.monado_binding
          | none => "0" }

/-! ## The full-schema generator as a write stream

`generate_bindings_c` opens its output file and writes to it
incrementally; a fatal error (an unresolvable dpad cross-reference, or
the unconditional subscript of a missing `openxr_version_promoted`)
raises after part of the file is already written. The writes are
modelled as a list of `Chunk`s, and the generator returns the chunks
written up to the error together with the error, if any. -/

/-- Modelled from the spec: `Bindings` — "the root collection; holds the
ordered set of `profiles` loaded from the source definition". -/
structure Bindings where
  profiles : List Profile

/-- One write performed by `generate_bindings_c`, in write order. -/
inductive Chunk where
  /-- The file header, `#include`s and clang-format marker. -/
  | header
  /-- The four verification functions of one profile (content modelled by
  `get_verify_func` / `get_verify_functions_ext`). -/
  | verifyFuncs (validation_func_name : String)
  /-- The array opener `struct profile_template profile_templates[N]`. -/
  | templatesOpen (count : Nat)
  /-- The opening fields of one `profile_template` initializer. -/
  | profileOpen (device_enum path localized_name steamvr_input_profile_path steamvr_controller_type : String) (binding_count : Nat)
  /-- The opening fields and path array of one `binding_template`
  initializer (written before the value fields are computed). -/
  | bindingOpen (idx : Nat) (subaction_path steamvr_path localized_name : String) (paths : List String)
  /-- The `.input`, `.dpad_activate`, `.output` lines. -/
  | bindingValues (input dpad_activate output : String)
  /-- The close of one binding_template initializer. -/
  | bindingClose (idx : Nat)
  /-- The close of the binding_template array. -/
  | bindingsClose
  /-- The field `.dpad_count = n,`. -/
  | dpadCount (n : Nat)
  /-- The field `.dpads = NULL,`. -/
  | dpadsNull
  /-- The `dpad_emulation` array initializer. -/
  | dpadsBlock (recs : List DpadRec)
  /-- The fields `.openxr_version.promoted.major/minor = ...`. -/
  | promoted (major minor : Nat)
  /-- The four function-pointer fields referencing the verify functions. -/
  | fnPointers (validation_func_name : String)
  /-- The field `.extension_name`, a string or `NULL`. -/
  | extNameField (e : Option String)
  /-- The close of one profile_template initializer. -/
  | profileClose
  /-- The closing of the array and the trailing clang-format marker:
  the finalization of the output file. -/
  | epilogue
deriving DecidableEq, Repr

/-- The `vendor_name + "_" + hw_name + "_profile.json"` file name derived
from the profile path (oxr_bindings.py:192-194). -/
def steamvrProfileFname (p : Profile) : String :=
  let parts := p.name.splitOn "/"
  let hw_name := parts.getLastD ""
  let vendor_name := (parts.dropLast).getLastD ""
  vendor_name ++ "_" ++ hw_name ++ "_profile.json"

/-- The `"monado_" + vendor_name + "_" + hw_name` controller type
(oxr_bindings.py:195). -/
def steamvrControllerType (p : Profile) : String :=
  let parts := p.name.splitOn "/"
  let hw_name := parts.getLastD ""
  let vendor_name := (parts.dropLast).getLastD ""
  "monado_" ++ vendor_name ++ "_" ++ hw_name

/-- The writes of one component's `binding_template` initializer
(oxr_bindings.py:210-264): the opening fields and paths are written
before the dpad cross-reference is resolved, so an unresolvable
reference leaves them in the file. -/
def oxr_component_chunks (components : List Component) (idx : Nat) (c : Component) :
    List Chunk × Option String :=
  let openChunk := Chunk.bindingOpen idx c.subaction_path (steamvrPathOf c)
    c.subpath_localized_name c.full_openxr_paths
  match c.monado_binding with
  | none => ([openChunk, .bindingClose idx], none)
  | some mb =>
    match resolveDpadActivate components c with
    | .error e => ([openChunk], some e)
    | .ok dpad_activate_value =>
      ([openChunk,
        .bindingValues (if c.input_role then mb else "0") dpad_activate_value
          (if c.output_role then mb else "0"),
        .bindingClose idx], none)

/-- Fold a list of emitters, stopping at the first error and keeping the
chunks written up to and including the failing step's partial writes. -/
def writeAll (steps : List (List Chunk × Option String)) : List Chunk × Option String :=
  match steps with
  | [] => ([], none)
  | (cs, some e) :: _ => (cs, some e)
  | (cs, none) :: rest =>
    let r := writeAll rest
    (cs ++ r.1, r.2)

/-- The writes of one profile's `profile_template` initializer
(oxr_bindings.py:191-310): opening fields, the binding templates, the
dpad array, then the unconditional subscripts
`profile.openxr_version_promoted["major"]` / `["minor"]` — which raise
when the field is absent — followed by the function pointers and the
extension name. -/
def oxr_profile_chunks (p : Profile) : List Chunk × Option String :=
  let openChunk := Chunk.profileOpen p.monado_device_enum p.name p.localized_name
    (steamvrProfileFname p) (steamvrControllerType p) p.components.length
  let bindings := writeAll (p.components.enum.map (fun ci => oxr_component_chunks p.components ci.1 ci.2))
  match bindings.2 with
  | some e => (openChunk :: bindings.1, some e)
  | none =>
    let dpads := p.identifiers.filterMap oxr_dpad_record
    let dpadChunks :=
      [Chunk.dpadCount dpads.length] ++
      (if dpads.isEmpty then [Chunk.dpadsNull] else [Chunk.dpadsBlock dpads])
    match p.openxr_version_promoted with
    | none =>
      (openChunk :: bindings.1 ++ [Chunk.bindingsClose] ++ dpadChunks,
       some ("TypeError: 'NoneType' object is not subscriptable: openxr_version_promoted of " ++ p.name))
    | some (ma, mi) =>
      (openChunk :: bindings.1 ++ [Chunk.bindingsClose] ++ dpadChunks ++
        [Chunk.promoted ma mi, Chunk.fnPointers p.validation_func_name,
         Chunk.extNameField p.extension_name, Chunk.profileClose],
       none)

/-- Translated from `generate_bindings_c` (oxr_bindings.py:168-316): the
header, the verification functions of every profile and the array opener
are written first; then the profile templates one by one; the epilogue —
the finalization of the output file — is written only when every profile
emitted without error. The first component of the result is the content
of the output file when the run ends (complete or aborted by the error
in the second component). -/
def generate_bindings_c (b : Bindings) : List Chunk × Option String :=
  let pre := Chunk.header :: b.profiles.map (fun p => Chunk.verifyFuncs p.validation_func_name) ++
    [Chunk.templatesOpen b.profiles.length]
  let body := writeAll (b.profiles.map oxr_profile_chunks)
  match body.2 with
  | some e => (pre ++ body.1, some e)
  | none => (pre ++ body.1 ++ [Chunk.epilogue], none)

/-! ## Specification predicates -/

/-- A feature set's guard block survives preprocessing for a build with
the given compiled extensions: all its required extensions are compiled
in (vacuously true for version-only feature sets). -/
def fsKept (compiled : List String) (fs : FeatureSet) : Bool :=
  fs.required_extensions.all (fun e => decide (e ∈ compiled))

/-- A feature set's runtime guard is satisfied: the version requirement
(when present) is met and all required extensions are enabled. -/
def fsSat (ctx : VCtx) (fs : FeatureSet) : Bool :=
  (match fs.required_version with
   | none => true
   | some (ma, mi) => decide (XR_MAKE_VERSION ma mi ≤ ctx.version)) &&
  fs.required_extensions.all (fun e => decide (e ∈ ctx.enabledExts))

/-- The input string is a candidate of the bucket keyed by the input
length. -/
def bodyHit (d : List (Nat × List String)) (ctx : VCtx) : Bool :=
  (caseCandidates d ctx.len).contains ctx.str

/-- What remains of a feature set's block when the preprocessor removes
its extension region: the version guard shell (or nothing). -/
def fsShell (fs : FeatureSet) : List Line :=
  match fs.required_version with
  | some (ma, mi) => [Line.vIf ma mi, Line.close]
  | none => []

/-- Preprocessor directives among the emitted lines. -/
def Line.isPP : Line → Bool
  | .ppIf _ => true
  | .ppEndif _ => true
  | _ => false

/-! ## Preprocessor lemmas -/

theorem preprocessAux_noPP_append (compiled : List String) (ls rest : List Line)
    (h : ∀ l ∈ ls, l.isPP = false) :
    preprocessAux compiled (ls ++ rest) false = ls ++ preprocessAux compiled rest false := by
  induction ls with
  | nil => simp
  | cons l ls ih =>
    have hl := h l (List.mem_cons_self l ls)
    have hrest : ∀ x ∈ ls, x.isPP = false := fun x hx => h x (List.mem_cons_of_mem l hx)
    cases l <;> simp_all [preprocessAux, Line.isPP]

theorem preprocessAux_drop_append (compiled : List String) (ls rest : List Line) (e : List String)
    (h : ∀ l ∈ ls, l.isPP = false) :
    preprocessAux compiled (ls ++ Line.ppEndif e :: rest) true =
      preprocessAux compiled rest false := by
  induction ls with
  | nil => simp [preprocessAux]
  | cons l ls ih =>
    have hl := h l (List.mem_cons_self l ls)
    have hrest : ∀ x ∈ ls, x.isPP = false := fun x hx => h x (List.mem_cons_of_mem l hx)
    cases l <;> simp_all [preprocessAux, Line.isPP]

theorem switch_body_noPP (d : List (Nat × List String)) :
    ∀ l ∈ get_verify_switch_body d, l.isPP = false := by
  intro l hl
  cases l <;> (try rfl) <;>
  · exfalso
    simp [get_verify_switch_body] at hl

theorem insertionSort_all {α : Type} (r : α → α → Prop) [DecidableRel r] (l : List α)
    (p : α → Bool) : (List.insertionSort r l).all p = l.all p := by
  rw [Bool.eq_iff_iff]
  simp only [List.all_eq_true, List.mem_insertionSort]

theorem insertionSort_any {α : Type} (r : α → α → Prop) [DecidableRel r] (l : List α)
    (p : α → Bool) : (List.insertionSort r l).any p = l.any p := by
  rw [Bool.eq_iff_iff]
  simp only [List.any_eq_true, List.mem_insertionSort]


theorem ppA_comment (c : List String) (s : String) (ls : List Line) :
    preprocessAux c (.comment s :: ls) false = .comment s :: preprocessAux c ls false := by
  simp [preprocessAux]

theorem ppA_vIf (c : List String) (a b : Nat) (ls : List Line) :
    preprocessAux c (.vIf a b :: ls) false = .vIf a b :: preprocessAux c ls false := by
  simp [preprocessAux]

theorem ppA_extIf (c e : List String) (ls : List Line) :
    preprocessAux c (.extIf e :: ls) false = .extIf e :: preprocessAux c ls false := by
  simp [preprocessAux]

theorem ppA_close (c : List String) (ls : List Line) :
    preprocessAux c (.close :: ls) false = .close :: preprocessAux c ls false := by
  simp [preprocessAux]

theorem ppA_ppEndif (c e : List String) (ls : List Line) :
    preprocessAux c (.ppEndif e :: ls) false = .ppEndif e :: preprocessAux c ls false := by
  simp [preprocessAux]

theorem ppA_ppIf (c e : List String) (ls : List Line) :
    preprocessAux c (.ppIf e :: ls) false =
      if e.all (fun x => decide (x ∈ c)) then .ppIf e :: preprocessAux c ls false
      else preprocessAux c ls true := by
  simp [preprocessAux]

theorem preprocess_featureSetLines (compiled : List String) (d : List (Nat × List String))
    (fs : FeatureSet) (rest : List Line) :
    preprocessAux compiled (featureSetLines d fs ++ rest) false =
      (if fsKept compiled fs then featureSetLines d fs else fsShell fs) ++
        preprocessAux compiled rest false := by
  have hall : (List.insertionSort strLe fs.required_extensions).all
      (fun e => decide (e ∈ compiled)) = fsKept compiled fs :=
    insertionSort_all strLe fs.required_extensions _
  by_cases hext : fs.required_extensions.isEmpty
  · have hkept : fsKept compiled fs = true := by
      simp only [fsKept]
      rw [List.isEmpty_iff] at hext
      simp [hext]
    rw [hkept, if_pos rfl]
    apply preprocessAux_noPP_append
    intro l hl
    cases hv : fs.required_version with
    | none =>
      cases l <;> (try rfl) <;>
      · exfalso
        simp [featureSetLines, hext, hv, get_verify_switch_body] at hl
    | some v =>
      cases v with
      | mk ma mi =>
        cases l <;> (try rfl) <;>
        · exfalso
          simp [featureSetLines, hext, hv, get_verify_switch_body] at hl
  · by_cases hk : fsKept compiled fs = true
    · rw [hk, if_pos rfl]
      cases hv : fs.required_version with
      | some v =>
        cases v with
        | mk ma mi =>
          have hsh : featureSetLines d fs ++ rest =
              Line.vIf ma mi :: Line.ppIf (List.insertionSort strLe fs.required_extensions) ::
                Line.extIf (List.insertionSort strLe fs.required_extensions) ::
                (get_verify_switch_body d ++
                  (Line.close ::
                   Line.ppEndif (List.insertionSort strLe fs.required_extensions) ::
                   Line.close :: rest)) := by
            simp [featureSetLines, hv, hext]
          have hsh2 : featureSetLines d fs =
              Line.vIf ma mi :: Line.ppIf (List.insertionSort strLe fs.required_extensions) ::
                Line.extIf (List.insertionSort strLe fs.required_extensions) ::
                (get_verify_switch_body d ++
                  [Line.close,
                   Line.ppEndif (List.insertionSort strLe fs.required_extensions),
                   Line.close]) := by
            simp [featureSetLines, hv, hext]
          rw [hsh, hsh2, ppA_vIf, ppA_ppIf, if_pos (by rw [hall]; exact hk), ppA_extIf,
            preprocessAux_noPP_append compiled _ _ (switch_body_noPP d),
            ppA_close, ppA_ppEndif, ppA_close]
          simp
      | none =>
        have hsh : featureSetLines d fs ++ rest =
            Line.ppIf (List.insertionSort strLe fs.required_extensions) ::
              Line.extIf (List.insertionSort strLe fs.required_extensions) ::
              (get_verify_switch_body d ++
                (Line.close ::
                 Line.ppEndif (List.insertionSort strLe fs.required_extensions) :: rest)) := by
          simp [featureSetLines, hv, hext]
        have hsh2 : featureSetLines d fs =
            Line.ppIf (List.insertionSort strLe fs.required_extensions) ::
              Line.extIf (List.insertionSort strLe fs.required_extensions) ::
              (get_verify_switch_body d ++
                [Line.close,
                 Line.ppEndif (List.insertionSort strLe fs.required_extensions)]) := by
          simp [featureSetLines, hv, hext]
        rw [hsh, hsh2, ppA_ppIf, if_pos (by rw [hall]; exact hk), ppA_extIf,
          preprocessAux_noPP_append compiled _ _ (switch_body_noPP d),
          ppA_close, ppA_ppEndif]
        simp
    · rw [if_neg hk]
      have hk' : (List.insertionSort strLe fs.required_extensions).all
          (fun e => decide (e ∈ compiled)) = false := by
        rw [hall]
        simpa using hk
      have hdrop : ∀ l ∈ Line.extIf (List.insertionSort strLe fs.required_extensions) ::
          (get_verify_switch_body d ++ [Line.close]), l.isPP = false := by
        intro l hl
        rcases List.mem_cons.mp hl with h | h
        · subst h; rfl
        · rcases List.mem_append.mp h with h' | h'
          · exact switch_body_noPP d l h'
          · rcases List.mem_singleton.mp h' with h''
            subst h''; rfl
      cases hv : fs.required_version with
      | some v =>
        cases v with
        | mk ma mi =>
          have hsh : featureSetLines d fs ++ rest =
              Line.vIf ma mi :: Line.ppIf (List.insertionSort strLe fs.required_extensions) ::
                ((Line.extIf (List.insertionSort strLe fs.required_extensions) ::
                  (get_verify_switch_body d ++ [Line.close])) ++
                 (Line.ppEndif (List.insertionSort strLe fs.required_extensions) ::
                   Line.close :: rest)) := by
            simp [featureSetLines, hv, hext]
          rw [hsh, ppA_vIf, ppA_ppIf, if_neg (by rw [hk']; simp),
            preprocessAux_drop_append compiled _ _ _ hdrop, ppA_close]
          simp [fsShell, hv]
      | none =>
        have hsh : featureSetLines d fs ++ rest =
            Line.ppIf (List.insertionSort strLe fs.required_extensions) ::
              ((Line.extIf (List.insertionSort strLe fs.required_extensions) ::
                (get_verify_switch_body d ++ [Line.close])) ++
               (Line.ppEndif (List.insertionSort strLe fs.required_extensions) :: rest)) := by
          simp [featureSetLines, hv, hext]
        rw [hsh, ppA_ppIf, if_neg (by rw [hk']; simp),
          preprocessAux_drop_append compiled _ _ _ hdrop]
        simp [fsShell, hv]

/-- What `get_verify_func_switch` becomes after the C preprocessor for a
build with the given compiled extensions: exactly the blocks whose
required extensions are all compiled in survive; an extension-requiring
block whose extensions are (partly) compiled out is reduced to its
version shell — version-only blocks are never touched. -/
def preprocessedSwitch (compiled : List String) (d : List (Nat × List String))
    (profile_name : String) (availability : List FeatureSet) : List Line :=
  if d.isEmpty then []
  else
    Line.comment profile_name ::
    (List.insertionSort fsLe availability).flatMap
      (fun fs => if fsKept compiled fs then featureSetLines d fs else fsShell fs)

theorem preprocess_flatMap_fsLines (compiled : List String) (d : List (Nat × List String))
    (l : List FeatureSet) (rest : List Line) :
    preprocessAux compiled (l.flatMap (featureSetLines d) ++ rest) false =
      l.flatMap (fun fs => if fsKept compiled fs then featureSetLines d fs else fsShell fs) ++
        preprocessAux compiled rest false := by
  induction l with
  | nil => simp
  | cons fs l ih =>
    simp only [List.flatMap_cons, List.append_assoc]
    rw [preprocess_featureSetLines, ih]

theorem preprocess_func_switch (compiled : List String) (d : List (Nat × List String))
    (profile_name : String) (availability : List FeatureSet) (rest : List Line) :
    preprocessAux compiled (get_verify_func_switch d profile_name availability ++ rest) false =
      preprocessedSwitch compiled d profile_name availability ++
        preprocessAux compiled rest false := by
  by_cases hd : d.isEmpty
  · simp [get_verify_func_switch, preprocessedSwitch, hd]
  · rw [get_verify_func_switch, preprocessedSwitch, if_neg hd, if_neg hd, List.cons_append,
      ppA_comment, preprocess_flatMap_fsLines, List.cons_append]

/-! ## Run lemmas -/

theorem runLines_append (ctx : VCtx) (a b : List Line) (st : RunSt) :
    runLines ctx (a ++ b) st =
      (if (runLines ctx a st).1 then runLines ctx a st
       else ((runLines ctx b (runLines ctx a st).2.2).1,
             (runLines ctx a st).2.1 + (runLines ctx b (runLines ctx a st).2.2).2.1,
             (runLines ctx b (runLines ctx a st).2.2).2.2)) := by
  induction a generalizing st with
  | nil => simp [runLines]
  | cons l ls ih =>
    cases l with
    | strcmpRet p =>
      simp only [List.cons_append, runLines]
      by_cases hg : (st.guards.all id && st.caseOn) = true
      · simp only [hg, if_true]
        by_cases he : p = ctx.str
        · simp [he]
        · simp only [he, Bool.false_eq_true, if_false, ite_false, List.append_eq]
          rw [ih st]
          by_cases h1 : (runLines ctx ls st).1
          · simp [h1]
          · simp only [h1, Bool.false_eq_true, if_false]
            refine Prod.ext rfl (Prod.ext ?_ rfl)
            simp only
            omega
      · simp only [hg, Bool.false_eq_true, if_false]
        exact ih st
    | comment s => simpa only [List.cons_append, runLines] using ih _
    | vIf a b => simpa only [List.cons_append, runLines] using ih _
    | ppIf e => simpa only [List.cons_append, runLines] using ih _
    | extIf e => simpa only [List.cons_append, runLines] using ih _
    | switchOpen => simpa only [List.cons_append, runLines] using ih _
    | caseOpen n => simpa only [List.cons_append, runLines] using ih _
    | caseClose => simpa only [List.cons_append, runLines] using ih _
    | defaultBreak => simpa only [List.cons_append, runLines] using ih _
    | switchClose => simpa only [List.cons_append, runLines] using ih _
    | close => simpa only [List.cons_append, runLines] using ih _
    | ppEndif e => simpa only [List.cons_append, runLines] using ih _

theorem runLines_strcmps_inactive (ctx : VCtx) (cs : List String) (ls : List Line) (st : RunSt)
    (h : (st.guards.all id && st.caseOn) = false) :
    runLines ctx (cs.map Line.strcmpRet ++ ls) st = runLines ctx ls st := by
  induction cs with
  | nil => simp
  | cons c cs ih => simp [runLines, h, ih]

theorem runLines_strcmps_hit (ctx : VCtx) (cs : List String) (ls : List Line) (st : RunSt)
    (hg : (st.guards.all id && st.caseOn) = true) (hc : cs.contains ctx.str = true) :
    (runLines ctx (cs.map Line.strcmpRet ++ ls) st).1 = true := by
  induction cs with
  | nil => simp at hc
  | cons c cs ih =>
    simp only [List.map_cons, List.cons_append, runLines, hg, if_true]
    by_cases he : c = ctx.str
    · simp [he]
    · have hc' : cs.contains ctx.str = true := by
        simp only [List.contains_cons] at hc
        rcases Bool.or_eq_true_iff.mp hc with h' | h'
        · exact absurd (beq_iff_eq.mp h').symm he
        · exact h'
      simp [he, ih hc']

theorem runLines_strcmps_miss (ctx : VCtx) (cs : List String) (ls : List Line) (st : RunSt)
    (hg : (st.guards.all id && st.caseOn) = true) (hc : cs.contains ctx.str = false) :
    runLines ctx (cs.map Line.strcmpRet ++ ls) st =
      ((runLines ctx ls st).1, (runLines ctx ls st).2.1 + cs.length,
       (runLines ctx ls st).2.2) := by
  induction cs with
  | nil => simp
  | cons c cs ih =>
    simp only [List.contains_cons, Bool.or_eq_false_iff] at hc
    have he : ¬(c = ctx.str) := fun h => by simp [h] at hc
    simp only [List.map_cons, List.cons_append, runLines, hg, if_true, he, Bool.false_eq_true,
      if_false, ite_false, List.append_eq]
    rw [ih hc.2]
    refine Prod.ext rfl (Prod.ext ?_ rfl)
    simp only [List.length_cons]
    omega

theorem runLines_cases (ctx : VCtx) (d : List (Nat × List String)) (ks : List Nat)
    (ls : List Line) (g : List Bool) :
    ((runLines ctx
        (ks.flatMap (fun len =>
          Line.caseOpen len :: ((caseCandidates d len).map Line.strcmpRet ++ [Line.caseClose])) ++
          ls) ⟨g, false⟩).1 =
      ((g.all id &&
        ks.any (fun L => decide (L = ctx.len) && (caseCandidates d L).contains ctx.str)) ||
        (runLines ctx ls ⟨g, false⟩).1)) ∧
    ((g.all id &&
        ks.any (fun L => decide (L = ctx.len) && (caseCandidates d L).contains ctx.str)) = false →
      (runLines ctx
        (ks.flatMap (fun len =>
          Line.caseOpen len :: ((caseCandidates d len).map Line.strcmpRet ++ [Line.caseClose])) ++
          ls) ⟨g, false⟩).2.2 = (runLines ctx ls ⟨g, false⟩).2.2) := by
  induction ks with
  | nil => simp
  | cons L ks ih =>
    have hshape :
        ((L :: ks).flatMap (fun len =>
          Line.caseOpen len :: ((caseCandidates d len).map Line.strcmpRet ++ [Line.caseClose])) ++
          ls) =
        Line.caseOpen L :: ((caseCandidates d L).map Line.strcmpRet ++
          (Line.caseClose ::
            (ks.flatMap (fun len =>
              Line.caseOpen len ::
                ((caseCandidates d len).map Line.strcmpRet ++ [Line.caseClose])) ++ ls))) := by
      simp
    rw [hshape]
    have hstep : runLines ctx
        (Line.caseOpen L :: ((caseCandidates d L).map Line.strcmpRet ++
          (Line.caseClose ::
            (ks.flatMap (fun len =>
              Line.caseOpen len ::
                ((caseCandidates d len).map Line.strcmpRet ++ [Line.caseClose])) ++ ls))))
        ⟨g, false⟩ =
      runLines ctx
        ((caseCandidates d L).map Line.strcmpRet ++
          (Line.caseClose ::
            (ks.flatMap (fun len =>
              Line.caseOpen len ::
                ((caseCandidates d len).map Line.strcmpRet ++ [Line.caseClose])) ++ ls)))
        ⟨g, decide (L = ctx.len)⟩ := by
      simp [runLines, stepLine]
    rw [hstep]
    have hclose : ∀ st' : RunSt, runLines ctx
        (Line.caseClose ::
          (ks.flatMap (fun len =>
            Line.caseOpen len ::
              ((caseCandidates d len).map Line.strcmpRet ++ [Line.caseClose])) ++ ls)) st' =
      runLines ctx
        (ks.flatMap (fun len =>
          Line.caseOpen len ::
            ((caseCandidates d len).map Line.strcmpRet ++ [Line.caseClose])) ++ ls)
        ⟨st'.guards, false⟩ := by
      intro st'
      simp [runLines, stepLine]
    by_cases hA : (g.all id && decide (L = ctx.len)) = true
    · rcases Bool.and_eq_true_iff.mp hA with ⟨hg', hL'⟩
      by_cases hcs : (caseCandidates d L).contains ctx.str = true
      · have hmem : ctx.str ∈ caseCandidates d L := by simpa using hcs
        constructor
        · rw [runLines_strcmps_hit ctx _ _ _ (by simpa using hA) hcs]
          have hcond : (g.all id &&
              ((L :: ks).any
                (fun x => decide (x = ctx.len) && (caseCandidates d x).contains ctx.str))) =
              true := by
            simp [List.any_cons, hg', hL', hmem]
          rw [hcond]
          simp
        · intro hfalse
          exfalso
          simp [List.any_cons, hg', hL', hmem] at hfalse
      · have hcs' : decide (ctx.str ∈ caseCandidates d L) = false := by simpa using hcs
        rw [runLines_strcmps_miss ctx _ _ _ (by simpa using hA) (by simpa using hcs)]
        rw [hclose]
        simp only
        constructor
        · rw [ih.1]
          simp [List.any_cons, hg', hL', hcs']
        · intro hfalse
          apply ih.2
          simpa [List.any_cons, hcs'] using hfalse
    · rw [runLines_strcmps_inactive ctx _ _ _ (by simpa using hA)]
      rw [hclose]
      simp only
      have hterm : (g.all id &&
          ((L :: ks).any
            (fun x => decide (x = ctx.len) && (caseCandidates d x).contains ctx.str))) =
          (g.all id &&
            (ks.any (fun x => decide (x = ctx.len) && (caseCandidates d x).contains ctx.str))) := by
        cases hg' : g.all id with
        | false => simp
        | true =>
          cases hL' : decide (L = ctx.len) with
          | false => simp [List.any_cons, hL']
          | true => exfalso; rw [hg', hL'] at hA; simp at hA
      constructor
      · rw [ih.1, hterm]
      · intro hfalse
        apply ih.2
        rw [hterm] at hfalse
        exact hfalse

theorem any_key_collapse (ks : List Nat) (f : Nat → Bool) (n : Nat) :
    ks.any (fun L => decide (L = n) && f L) = (decide (n ∈ ks) && f n) := by
  induction ks with
  | nil => simp
  | cons L ks ih =>
    by_cases hL : L = n
    · subst hL
      simp only [List.any_cons, ih, List.mem_cons, true_or]
      cases f L <;> cases hd : decide (L ∈ ks) <;> simp [hd]
    · have hnl : (n = L) ↔ False := iff_false_intro (fun h => hL h.symm)
      simp only [List.any_cons, ih, List.mem_cons]
      simp [hL, hnl]

theorem bodyHit_mem_keys (d : List (Nat × List String)) (n : Nat) (s : String)
    (h : (caseCandidates d n).contains s = true) : n ∈ dictKeys d := by
  have hne : dictGet d n ≠ [] := by
    intro h0
    rw [caseCandidates, h0] at h
    simp [List.insertionSort] at h
  rw [dictGet] at hne
  cases hf : d.find? (fun kv => kv.1 == n) with
  | none => rw [hf] at hne; exact absurd rfl hne
  | some kv =>
    have hmem := List.mem_of_find?_eq_some hf
    have hkey := List.find?_some hf
    have hkey' : kv.1 = n := by simpa using hkey
    rw [dictKeys, List.mem_dedup]
    exact hkey' ▸ List.mem_map_of_mem Prod.fst hmem

theorem runLines_switch_body (ctx : VCtx) (d : List (Nat × List String)) (ls : List Line)
    (g : List Bool) (c : Bool) :
    ((runLines ctx (get_verify_switch_body d ++ ls) ⟨g, c⟩).1 =
      ((g.all id && bodyHit d ctx) || (runLines ctx ls ⟨g, false⟩).1)) ∧
    ((g.all id && bodyHit d ctx) = false →
      (runLines ctx (get_verify_switch_body d ++ ls) ⟨g, c⟩).2.2 =
        (runLines ctx ls ⟨g, false⟩).2.2) := by
  have hshape : get_verify_switch_body d ++ ls =
      Line.switchOpen ::
        ((List.insertionSort natLe (dictKeys d)).flatMap (fun len =>
          Line.caseOpen len :: ((caseCandidates d len).map Line.strcmpRet ++ [Line.caseClose])) ++
          (Line.defaultBreak :: Line.switchClose :: ls)) := by
    simp [get_verify_switch_body]
  have hstep : ∀ rest, runLines ctx (Line.switchOpen :: rest) ⟨g, c⟩ =
      runLines ctx rest ⟨g, false⟩ := by
    intro rest
    simp [runLines, stepLine]
  have htail : runLines ctx (Line.defaultBreak :: Line.switchClose :: ls) ⟨g, false⟩ =
      runLines ctx ls ⟨g, false⟩ := by
    simp [runLines, stepLine]
  have hany : (List.insertionSort natLe (dictKeys d)).any
      (fun L => decide (L = ctx.len) && (caseCandidates d L).contains ctx.str) =
      bodyHit d ctx := by
    rw [insertionSort_any, any_key_collapse]
    cases hb : (caseCandidates d ctx.len).contains ctx.str with
    | false =>
      have hb' : ctx.str ∉ caseCandidates d ctx.len := by simpa using hb
      simp [bodyHit, hb, hb']
    | true =>
      have hb' : ctx.str ∈ caseCandidates d ctx.len := by simpa using hb
      simp [bodyHit, hb, hb', bodyHit_mem_keys d ctx.len ctx.str hb]
  rw [hshape, hstep]
  have hc := runLines_cases ctx d (List.insertionSort natLe (dictKeys d))
    (Line.defaultBreak :: Line.switchClose :: ls) g
  rw [hany] at hc
  constructor
  · rw [hc.1, htail]
  · intro hfalse
    rw [hc.2 hfalse, htail]

theorem runLines_cases_absent (ctx : VCtx) (d : List (Nat × List String)) (ks : List Nat)
    (ls : List Line) (g : List Bool) (h : ∀ L ∈ ks, L ≠ ctx.len) :
    runLines ctx
      (ks.flatMap (fun len =>
        Line.caseOpen len :: ((caseCandidates d len).map Line.strcmpRet ++ [Line.caseClose])) ++
        ls) ⟨g, false⟩ = runLines ctx ls ⟨g, false⟩ := by
  induction ks with
  | nil => simp
  | cons L ks ih =>
    have hL : L ≠ ctx.len := h L (List.mem_cons_self L ks)
    have hshape :
        ((L :: ks).flatMap (fun len =>
          Line.caseOpen len :: ((caseCandidates d len).map Line.strcmpRet ++ [Line.caseClose])) ++
          ls) =
        Line.caseOpen L :: ((caseCandidates d L).map Line.strcmpRet ++
          (Line.caseClose ::
            (ks.flatMap (fun len =>
              Line.caseOpen len ::
                ((caseCandidates d len).map Line.strcmpRet ++ [Line.caseClose])) ++ ls))) := by
      simp
    rw [hshape]
    have hstep : runLines ctx (Line.caseOpen L :: ((caseCandidates d L).map Line.strcmpRet ++
        (Line.caseClose ::
          (ks.flatMap (fun len =>
            Line.caseOpen len ::
              ((caseCandidates d len).map Line.strcmpRet ++ [Line.caseClose])) ++ ls))))
        ⟨g, false⟩ =
      runLines ctx ((caseCandidates d L).map Line.strcmpRet ++
        (Line.caseClose ::
          (ks.flatMap (fun len =>
            Line.caseOpen len ::
              ((caseCandidates d len).map Line.strcmpRet ++ [Line.caseClose])) ++ ls)))
        ⟨g, false⟩ := by
      simp [runLines, stepLine, hL]
    rw [hstep]
    rw [runLines_strcmps_inactive ctx _ _ _ (by simp)]
    have hcl : runLines ctx (Line.caseClose ::
        (ks.flatMap (fun len =>
          Line.caseOpen len ::
            ((caseCandidates d len).map Line.strcmpRet ++ [Line.caseClose])) ++ ls))
        ⟨g, false⟩ =
      runLines ctx
        (ks.flatMap (fun len =>
          Line.caseOpen len ::
            ((caseCandidates d len).map Line.strcmpRet ++ [Line.caseClose])) ++ ls)
        ⟨g, false⟩ := by
      simp [runLines, stepLine]
    rw [hcl]
    exact ih (fun L hL' => h L (List.mem_cons_of_mem _ hL'))

theorem runLines_switch_body_absent (ctx : VCtx) (d : List (Nat × List String)) (ls : List Line)
    (g : List Bool) (c : Bool) (hk : ctx.len ∉ dictKeys d) :
    runLines ctx (get_verify_switch_body d ++ ls) ⟨g, c⟩ = runLines ctx ls ⟨g, false⟩ := by
  have hshape : get_verify_switch_body d ++ ls =
      Line.switchOpen ::
        ((List.insertionSort natLe (dictKeys d)).flatMap (fun len =>
          Line.caseOpen len :: ((caseCandidates d len).map Line.strcmpRet ++ [Line.caseClose])) ++
          (Line.defaultBreak :: Line.switchClose :: ls)) := by
    simp [get_verify_switch_body]
  rw [hshape]
  have hstep : ∀ rest, runLines ctx (Line.switchOpen :: rest) ⟨g, c⟩ =
      runLines ctx rest ⟨g, false⟩ := by
    intro rest
    simp [runLines, stepLine]
  rw [hstep]
  rw [runLines_cases_absent ctx d _ _ g
    (fun L hL => fun hEq => hk ((List.mem_insertionSort natLe).mp (hEq ▸ hL)))]
  simp [runLines, stepLine]

theorem runLines_fsShell (ctx : VCtx) (fs : FeatureSet) (ls : List Line) (g : List Bool)
    (c : Bool) :
    runLines ctx (fsShell fs ++ ls) ⟨g, c⟩ = runLines ctx ls ⟨g, c⟩ := by
  cases hv : fs.required_version with
  | none => simp [fsShell, hv]
  | some v =>
    cases v with
    | mk ma mi => simp [fsShell, hv, runLines, stepLine]

theorem runLines_fsLines (ctx : VCtx) (compiled : List String) (d : List (Nat × List String))
    (fs : FeatureSet) (ls : List Line) (g : List Bool) :
    ((runLines ctx (featureSetLines d fs ++ ls) ⟨g, false⟩).1 =
      ((g.all id && (fsSat ctx fs && bodyHit d ctx)) || (runLines ctx ls ⟨g, false⟩).1)) ∧
    ((g.all id && (fsSat ctx fs && bodyHit d ctx)) = false →
      (runLines ctx (featureSetLines d fs ++ ls) ⟨g, false⟩).2.2 =
        (runLines ctx ls ⟨g, false⟩).2.2) := by
  have hallsort : (List.insertionSort strLe fs.required_extensions).all
      (fun e => decide (e ∈ ctx.enabledExts)) =
      fs.required_extensions.all (fun e => decide (e ∈ ctx.enabledExts)) :=
    insertionSort_all strLe fs.required_extensions _
  by_cases hext : fs.required_extensions.isEmpty
  · have hextall : fs.required_extensions.all (fun e => decide (e ∈ ctx.enabledExts)) = true := by
      rw [List.isEmpty_iff] at hext
      simp [hext]
    cases hv : fs.required_version with
    | none =>
      have hshape : featureSetLines d fs ++ ls = get_verify_switch_body d ++ ls := by
        simp [featureSetLines, hv, hext]
      rw [hshape]
      have hsat : fsSat ctx fs = true := by
        simp only [fsSat, hv, hextall, Bool.true_and, Bool.and_true]
      rw [hsat]
      have hb := runLines_switch_body ctx d ls g false
      simpa using hb
    | some v =>
      cases v with
      | mk ma mi =>
        have hshape : featureSetLines d fs ++ ls =
            Line.vIf ma mi :: (get_verify_switch_body d ++ (Line.close :: ls)) := by
          simp [featureSetLines, hv, hext]
        rw [hshape]
        have hstep : runLines ctx
            (Line.vIf ma mi :: (get_verify_switch_body d ++ (Line.close :: ls))) ⟨g, false⟩ =
          runLines ctx (get_verify_switch_body d ++ (Line.close :: ls))
            ⟨decide (XR_MAKE_VERSION ma mi ≤ ctx.version) :: g, false⟩ := by
          simp [runLines, stepLine]
        have hclose : ∀ b : Bool, runLines ctx (Line.close :: ls) ⟨b :: g, false⟩ =
            runLines ctx ls ⟨g, false⟩ := by
          intro b
          simp [runLines, stepLine]
        have hsat : fsSat ctx fs =
            (decide (XR_MAKE_VERSION ma mi ≤ ctx.version) && true) := by
          simp only [fsSat, hv, hextall]
        rw [hstep]
        have hb := runLines_switch_body ctx d (Line.close :: ls)
          (decide (XR_MAKE_VERSION ma mi ≤ ctx.version) :: g) false
        rw [hclose] at hb
        constructor
        · rw [hb.1, hsat]
          simp only [List.all_cons, id_eq, Bool.and_true]
          cases decide (XR_MAKE_VERSION ma mi ≤ ctx.version) <;>
            cases g.all id <;> cases bodyHit d ctx <;> simp
        · intro hfalse
          apply hb.2
          rw [hsat] at hfalse
          simp only [List.all_cons, id_eq, Bool.and_true] at hfalse ⊢
          cases hV : decide (XR_MAKE_VERSION ma mi ≤ ctx.version) <;>
            cases hG : g.all id <;> cases hB : bodyHit d ctx <;>
            simp [hV, hG, hB] at hfalse ⊢
  · cases hv : fs.required_version with
    | none =>
      have hshape : featureSetLines d fs ++ ls =
          Line.ppIf (List.insertionSort strLe fs.required_extensions) ::
          Line.extIf (List.insertionSort strLe fs.required_extensions) ::
          (get_verify_switch_body d ++ (Line.close :: Line.ppEndif
            (List.insertionSort strLe fs.required_extensions) :: ls)) := by
        simp [featureSetLines, hv, hext]
      rw [hshape]
      have hstep : runLines ctx
          (Line.ppIf (List.insertionSort strLe fs.required_extensions) ::
           Line.extIf (List.insertionSort strLe fs.required_extensions) ::
           (get_verify_switch_body d ++ (Line.close :: Line.ppEndif
             (List.insertionSort strLe fs.required_extensions) :: ls))) ⟨g, false⟩ =
        runLines ctx (get_verify_switch_body d ++ (Line.close :: Line.ppEndif
          (List.insertionSort strLe fs.required_extensions) :: ls))
          ⟨fs.required_extensions.all (fun e => decide (e ∈ ctx.enabledExts)) :: g, false⟩ := by
        simp [runLines, stepLine, hallsort]
      have hclose : ∀ b : Bool, runLines ctx (Line.close :: Line.ppEndif
          (List.insertionSort strLe fs.required_extensions) :: ls) ⟨b :: g, false⟩ =
          runLines ctx ls ⟨g, false⟩ := by
        intro b
        simp [runLines, stepLine]
      have hsat : fsSat ctx fs =
          fs.required_extensions.all (fun e => decide (e ∈ ctx.enabledExts)) := by
        simp only [fsSat, hv, Bool.true_and]
      rw [hstep]
      have hb := runLines_switch_body ctx d (Line.close :: Line.ppEndif
        (List.insertionSort strLe fs.required_extensions) :: ls)
        (fs.required_extensions.all (fun e => decide (e ∈ ctx.enabledExts)) :: g) false
      rw [hclose] at hb
      constructor
      · rw [hb.1, hsat]
        simp only [List.all_cons, id_eq]
        cases fs.required_extensions.all (fun e => decide (e ∈ ctx.enabledExts)) <;>
          cases g.all id <;> cases bodyHit d ctx <;> simp
      · intro hfalse
        apply hb.2
        rw [hsat] at hfalse
        simp only [List.all_cons, id_eq] at hfalse ⊢
        cases hE : fs.required_extensions.all (fun e => decide (e ∈ ctx.enabledExts)) <;>
          cases hG : g.all id <;> cases hB : bodyHit d ctx <;>
          simp [hE, hG, hB] at hfalse ⊢
    | some v =>
      cases v with
      | mk ma mi =>
        have hshape : featureSetLines d fs ++ ls =
            Line.vIf ma mi ::
            Line.ppIf (List.insertionSort strLe fs.required_extensions) ::
            Line.extIf (List.insertionSort strLe fs.required_extensions) ::
            (get_verify_switch_body d ++ (Line.close :: Line.ppEndif
              (List.insertionSort strLe fs.required_extensions) :: Line.close :: ls)) := by
          simp [featureSetLines, hv, hext]
        rw [hshape]
        have hstep : runLines ctx
            (Line.vIf ma mi ::
             Line.ppIf (List.insertionSort strLe fs.required_extensions) ::
             Line.extIf (List.insertionSort strLe fs.required_extensions) ::
             (get_verify_switch_body d ++ (Line.close :: Line.ppEndif
               (List.insertionSort strLe fs.required_extensions) :: Line.close :: ls)))
            ⟨g, false⟩ =
          runLines ctx (get_verify_switch_body d ++ (Line.close :: Line.ppEndif
            (List.insertionSort strLe fs.required_extensions) :: Line.close :: ls))
            ⟨fs.required_extensions.all (fun e => decide (e ∈ ctx.enabledExts)) ::
              decide (XR_MAKE_VERSION ma mi ≤ ctx.version) :: g, false⟩ := by
          simp [runLines, stepLine, hallsort]
        have hclose : ∀ b b' : Bool, runLines ctx (Line.close :: Line.ppEndif
            (List.insertionSort strLe fs.required_extensions) :: Line.close :: ls)
            ⟨b :: b' :: g, false⟩ = runLines ctx ls ⟨g, false⟩ := by
          intro b b'
          simp [runLines, stepLine]
        have hsat : fsSat ctx fs =
            (decide (XR_MAKE_VERSION ma mi ≤ ctx.version) &&
              fs.required_extensions.all (fun e => decide (e ∈ ctx.enabledExts))) := by
          simp only [fsSat, hv]
        rw [hstep]
        have hb := runLines_switch_body ctx d (Line.close :: Line.ppEndif
          (List.insertionSort strLe fs.required_extensions) :: Line.close :: ls)
          (fs.required_extensions.all (fun e => decide (e ∈ ctx.enabledExts)) ::
            decide (XR_MAKE_VERSION ma mi ≤ ctx.version) :: g) false
        rw [hclose] at hb
        constructor
        · rw [hb.1, hsat]
          simp only [List.all_cons, id_eq]
          cases fs.required_extensions.all (fun e => decide (e ∈ ctx.enabledExts)) <;>
            cases decide (XR_MAKE_VERSION ma mi ≤ ctx.version) <;>
            cases g.all id <;> cases bodyHit d ctx <;> simp
        · intro hfalse
          apply hb.2
          rw [hsat] at hfalse
          simp only [List.all_cons, id_eq] at hfalse ⊢
          cases hE : fs.required_extensions.all (fun e => decide (e ∈ ctx.enabledExts)) <;>
            cases hV : decide (XR_MAKE_VERSION ma mi ≤ ctx.version) <;>
            cases hG : g.all id <;> cases hB : bodyHit d ctx <;>
            simp [hE, hV, hG, hB] at hfalse ⊢

theorem runLines_fsLines_absent (ctx : VCtx) (d : List (Nat × List String)) (fs : FeatureSet)
    (ls : List Line) (g : List Bool) (hk : ctx.len ∉ dictKeys d) :
    runLines ctx (featureSetLines d fs ++ ls) ⟨g, false⟩ = runLines ctx ls ⟨g, false⟩ := by
  by_cases hext : fs.required_extensions.isEmpty
  · cases hv : fs.required_version with
    | none =>
      have hshape : featureSetLines d fs ++ ls = get_verify_switch_body d ++ ls := by
        simp [featureSetLines, hv, hext]
      rw [hshape, runLines_switch_body_absent ctx d ls g false hk]
    | some v =>
      cases v with
      | mk ma mi =>
        have hshape : featureSetLines d fs ++ ls =
            Line.vIf ma mi :: (get_verify_switch_body d ++ (Line.close :: ls)) := by
          simp [featureSetLines, hv, hext]
        rw [hshape]
        have hstep : runLines ctx
            (Line.vIf ma mi :: (get_verify_switch_body d ++ (Line.close :: ls))) ⟨g, false⟩ =
          runLines ctx (get_verify_switch_body d ++ (Line.close :: ls))
            ⟨decide (XR_MAKE_VERSION ma mi ≤ ctx.version) :: g, false⟩ := by
          simp [runLines, stepLine]
        rw [hstep, runLines_switch_body_absent ctx d _ _ false hk]
        simp [runLines, stepLine]
  · cases hv : fs.required_version with
    | none =>
      have hshape : featureSetLines d fs ++ ls =
          Line.ppIf (List.insertionSort strLe fs.required_extensions) ::
          Line.extIf (List.insertionSort strLe fs.required_extensions) ::
          (get_verify_switch_body d ++ (Line.close :: Line.ppEndif
            (List.insertionSort strLe fs.required_extensions) :: ls)) := by
        simp [featureSetLines, hv, hext]
      rw [hshape]
      have hstep : runLines ctx
          (Line.ppIf (List.insertionSort strLe fs.required_extensions) ::
           Line.extIf (List.insertionSort strLe fs.required_extensions) ::
           (get_verify_switch_body d ++ (Line.close :: Line.ppEndif
             (List.insertionSort strLe fs.required_extensions) :: ls))) ⟨g, false⟩ =
        runLines ctx (get_verify_switch_body d ++ (Line.close :: Line.ppEndif
          (List.insertionSort strLe fs.required_extensions) :: ls))
          ⟨(List.insertionSort strLe fs.required_extensions).all
            (fun e => decide (e ∈ ctx.enabledExts)) :: g, false⟩ := by
        simp [runLines, stepLine]
      rw [hstep, runLines_switch_body_absent ctx d _ _ false hk]
      simp [runLines, stepLine]
    | some v =>
      cases v with
      | mk ma mi =>
        have hshape : featureSetLines d fs ++ ls =
            Line.vIf ma mi ::
            Line.ppIf (List.insertionSort strLe fs.required_extensions) ::
            Line.extIf (List.insertionSort strLe fs.required_extensions) ::
            (get_verify_switch_body d ++ (Line.close :: Line.ppEndif
              (List.insertionSort strLe fs.required_extensions) :: Line.close :: ls)) := by
          simp [featureSetLines, hv, hext]
        rw [hshape]
        have hstep : runLines ctx
            (Line.vIf ma mi ::
             Line.ppIf (List.insertionSort strLe fs.required_extensions) ::
             Line.extIf (List.insertionSort strLe fs.required_extensions) ::
             (get_verify_switch_body d ++ (Line.close :: Line.ppEndif
               (List.insertionSort strLe fs.required_extensions) :: Line.close :: ls)))
            ⟨g, false⟩ =
          runLines ctx (get_verify_switch_body d ++ (Line.close :: Line.ppEndif
            (List.insertionSort strLe fs.required_extensions) :: Line.close :: ls))
            ⟨(List.insertionSort strLe fs.required_extensions).all
              (fun e => decide (e ∈ ctx.enabledExts)) ::
              decide (XR_MAKE_VERSION ma mi ≤ ctx.version) :: g, false⟩ := by
          simp [runLines, stepLine]
        rw [hstep, runLines_switch_body_absent ctx d _ _ false hk]
        simp [runLines, stepLine]

theorem runLines_fsBlocks (ctx : VCtx) (compiled : List String) (d : List (Nat × List String))
    (l : List FeatureSet) (ls : List Line) (g : List Bool) :
    ((runLines ctx
        (l.flatMap (fun fs => if fsKept compiled fs then featureSetLines d fs else fsShell fs) ++
          ls) ⟨g, false⟩).1 =
      ((g.all id &&
        l.any (fun fs => fsKept compiled fs && fsSat ctx fs && bodyHit d ctx)) ||
        (runLines ctx ls ⟨g, false⟩).1)) ∧
    ((g.all id &&
        l.any (fun fs => fsKept compiled fs && fsSat ctx fs && bodyHit d ctx)) = false →
      (runLines ctx
        (l.flatMap (fun fs => if fsKept compiled fs then featureSetLines d fs else fsShell fs) ++
          ls) ⟨g, false⟩).2.2 = (runLines ctx ls ⟨g, false⟩).2.2) := by
  induction l with
  | nil => simp
  | cons fs l ih =>
    have hshape :
        ((fs :: l).flatMap
          (fun fs => if fsKept compiled fs then featureSetLines d fs else fsShell fs) ++ ls) =
        (if fsKept compiled fs then featureSetLines d fs else fsShell fs) ++
          (l.flatMap
            (fun fs => if fsKept compiled fs then featureSetLines d fs else fsShell fs) ++ ls) := by
      simp
    rw [hshape]
    by_cases hk : fsKept compiled fs = true
    · rw [hk, if_pos rfl]
      have hf := runLines_fsLines ctx compiled d fs
        (l.flatMap (fun fs => if fsKept compiled fs then featureSetLines d fs else fsShell fs) ++
          ls) g
      constructor
      · rw [hf.1, ih.1]
        simp only [List.any_cons, hk, Bool.true_and]
        cases hG : g.all id <;> cases hS : (fsSat ctx fs && bodyHit d ctx) <;>
          cases hA : (l.any fun fs => fsKept compiled fs && fsSat ctx fs && bodyHit d ctx) <;>
          simp [hG, hS, hA]
      · intro hfalse
        have h1 : (g.all id && (fsSat ctx fs && bodyHit d ctx)) = false := by
          simp only [List.any_cons, hk, Bool.true_and] at hfalse
          cases hS : (fsSat ctx fs && bodyHit d ctx) <;> cases hG : g.all id <;>
            simp [hS, hG] at hfalse ⊢
        have h2 : (g.all id &&
            l.any (fun fs => fsKept compiled fs && fsSat ctx fs && bodyHit d ctx)) = false := by
          simp only [List.any_cons] at hfalse
          cases hA : l.any (fun fs => fsKept compiled fs && fsSat ctx fs && bodyHit d ctx) <;>
            cases hG : g.all id <;> simp [hA, hG] at hfalse ⊢
        rw [hf.2 h1, ih.2 h2]
    · have hk' : fsKept compiled fs = false := by simpa using hk
      rw [hk', if_neg (by simp)]
      rw [runLines_fsShell]
      have hterm : ((fs :: l).any
          (fun fs => fsKept compiled fs && fsSat ctx fs && bodyHit d ctx)) =
          (l.any (fun fs => fsKept compiled fs && fsSat ctx fs && bodyHit d ctx)) := by
        simp [List.any_cons, hk']
      constructor
      · rw [ih.1, hterm]
      · intro hfalse
        rw [hterm] at hfalse
        exact ih.2 hfalse

theorem flatMap_attach {α β : Type} (l : List α) (f : α → List β) :
    l.attach.flatMap (fun x => f x.1) = l.flatMap f := by
  simp only [List.flatMap, List.attach, List.attachWith, List.map_pmap, List.pmap_eq_map]

theorem get_verify_func_body_eq (p : Profile) (sel : DictSel) (avail : List FeatureSet) :
    get_verify_func_body p sel avail =
      get_verify_func_switch (selDict sel p) p.name avail ++
      (match p.parent_profiles with
       | none => []
       | some pps =>
         (List.insertionSort profLe pps).flatMap
           (fun pp => get_verify_func_body pp sel (availIntersection avail pp.availability))) := by
  cases p with
  | mk n l v e en ov fs par c i s d de =>
    cases par with
    | none =>
      rw [get_verify_func_body]
      simp [Profile.parent_profiles]
    | some pps =>
      rw [get_verify_func_body]
      simp only [Profile.parent_profiles]
      congr 1
      exact flatMap_attach (List.insertionSort profLe pps)
        (fun pp => get_verify_func_body pp sel (availIntersection avail pp.availability))

/-! ## Specification of the full verification function -/

/-- The specification predicate for the compiled verification function:
some emitted feature-set guard — of the profile itself or of an ancestor
reached through the parent traversal, under the accumulated availability
intersection — survives preprocessing, is satisfied at run time, and the
input string is a candidate of the bucket keyed by the input length in
that block's dictionary. -/
def verifySpec (compiled : List String) (ctx : VCtx) (sel : DictSel) (p : Profile)
    (availability : List FeatureSet) : Bool :=
  availability.any
    (fun fs => fsKept compiled fs && fsSat ctx fs && bodyHit (selDict sel p) ctx) ||
  (match hpp : p.parent_profiles with
   | none => false
   | some pps =>
     (List.insertionSort profLe pps).attach.any
       (fun x =>
         have : sizeOf x.1 < sizeOf p :=
           sizeOf_lt_of_mem_parents hpp ((List.mem_insertionSort profLe).mp x.2)
         verifySpec compiled ctx sel x.1 (availIntersection availability x.1.availability)))
termination_by sizeOf p

theorem any_attach {α : Type} (l : List α) (f : α → Bool) :
    l.attach.any (fun x => f x.1) = l.any f := by
  rw [Bool.eq_iff_iff]
  simp only [List.any_eq_true]
  constructor
  · rintro ⟨x, _, h⟩
    exact ⟨x.1, x.2, h⟩
  · rintro ⟨a, ha, h⟩
    exact ⟨⟨a, ha⟩, List.mem_attach _ _, h⟩

theorem verifySpec_eq (compiled : List String) (ctx : VCtx) (sel : DictSel) (p : Profile)
    (availability : List FeatureSet) :
    verifySpec compiled ctx sel p availability =
      (availability.any
        (fun fs => fsKept compiled fs && fsSat ctx fs && bodyHit (selDict sel p) ctx) ||
      (match p.parent_profiles with
       | none => false
       | some pps =>
         (List.insertionSort profLe pps).any
           (fun pp => verifySpec compiled ctx sel pp
             (availIntersection availability pp.availability)))) := by
  cases p with
  | mk n l v e en ov fs par c i s d de =>
    cases par with
    | none =>
      rw [verifySpec]
      simp [Profile.parent_profiles]
    | some pps =>
      rw [verifySpec]
      simp only [Profile.parent_profiles]
      congr 1
      exact any_attach (List.insertionSort profLe pps)
        (fun pp => verifySpec compiled ctx sel pp
          (availIntersection availability pp.availability))

/-- No dictionary reached by the traversal — the profile's own and every
ancestor's — has a bucket for the input length. -/
def lenAbsent (ctx : VCtx) (sel : DictSel) (p : Profile) : Bool :=
  !(dictKeys (selDict sel p)).contains ctx.len &&
  (match hpp : p.parent_profiles with
   | none => true
   | some pps =>
     (List.insertionSort profLe pps).attach.all
       (fun x =>
         have : sizeOf x.1 < sizeOf p :=
           sizeOf_lt_of_mem_parents hpp ((List.mem_insertionSort profLe).mp x.2)
         lenAbsent ctx sel x.1))
termination_by sizeOf p

theorem all_attach {α : Type} (l : List α) (f : α → Bool) :
    l.attach.all (fun x => f x.1) = l.all f := by
  rw [Bool.eq_iff_iff]
  simp only [List.all_eq_true]
  constructor
  · rintro h a ha
    exact h ⟨a, ha⟩ (List.mem_attach _ _)
  · rintro h x _
    exact h x.1 x.2

theorem lenAbsent_eq (ctx : VCtx) (sel : DictSel) (p : Profile) :
    lenAbsent ctx sel p =
      (!(dictKeys (selDict sel p)).contains ctx.len &&
      (match p.parent_profiles with
       | none => true
       | some pps =>
         (List.insertionSort profLe pps).all (fun pp => lenAbsent ctx sel pp))) := by
  cases p with
  | mk n l v e en ov fs par c i s d de =>
    cases par with
    | none =>
      rw [lenAbsent]
      simp [Profile.parent_profiles]
    | some pps =>
      rw [lenAbsent]
      simp only [Profile.parent_profiles]
      congr 1
      exact all_attach (List.insertionSort profLe pps) (fun pp => lenAbsent ctx sel pp)

theorem runLines_pSwitch (ctx : VCtx) (compiled : List String) (d : List (Nat × List String))
    (name : String) (avail : List FeatureSet) (ls : List Line) (g : List Bool) :
    ((runLines ctx (preprocessedSwitch compiled d name avail ++ ls) ⟨g, false⟩).1 =
      ((g.all id &&
        avail.any (fun fs => fsKept compiled fs && fsSat ctx fs && bodyHit d ctx)) ||
        (runLines ctx ls ⟨g, false⟩).1)) ∧
    ((g.all id &&
        avail.any (fun fs => fsKept compiled fs && fsSat ctx fs && bodyHit d ctx)) = false →
      (runLines ctx (preprocessedSwitch compiled d name avail ++ ls) ⟨g, false⟩).2.2 =
        (runLines ctx ls ⟨g, false⟩).2.2) := by
  by_cases hd : d.isEmpty
  · have hb : bodyHit d ctx = false := by
      rw [List.isEmpty_iff] at hd
      subst hd
      simp [bodyHit, caseCandidates, dictGet, List.find?, List.insertionSort]
    have hany : avail.any (fun fs => fsKept compiled fs && fsSat ctx fs && bodyHit d ctx) =
        false := by
      simp [hb]
    simp [preprocessedSwitch, hd, hany]
  · have hshape : preprocessedSwitch compiled d name avail ++ ls =
        Line.comment name ::
          ((List.insertionSort fsLe avail).flatMap
            (fun fs => if fsKept compiled fs then featureSetLines d fs else fsShell fs) ++ ls) := by
      simp [preprocessedSwitch, hd]
    rw [hshape]
    have hstep : ∀ rest, runLines ctx (Line.comment name :: rest) ⟨g, false⟩ =
        runLines ctx rest ⟨g, false⟩ := by
      intro rest
      simp [runLines, stepLine]
    rw [hstep]
    have hblocks := runLines_fsBlocks ctx compiled d (List.insertionSort fsLe avail) ls g
    rw [insertionSort_any] at hblocks
    exact hblocks

theorem runLines_fsBlocks_absent (ctx : VCtx) (compiled : List String)
    (d : List (Nat × List String)) (l : List FeatureSet) (ls : List Line) (g : List Bool)
    (hk : ctx.len ∉ dictKeys d) :
    runLines ctx
      (l.flatMap (fun fs => if fsKept compiled fs then featureSetLines d fs else fsShell fs) ++
        ls) ⟨g, false⟩ = runLines ctx ls ⟨g, false⟩ := by
  induction l with
  | nil => simp
  | cons fs l ih =>
    have hshape :
        ((fs :: l).flatMap
          (fun fs => if fsKept compiled fs then featureSetLines d fs else fsShell fs) ++ ls) =
        (if fsKept compiled fs then featureSetLines d fs else fsShell fs) ++
          (l.flatMap
            (fun fs => if fsKept compiled fs then featureSetLines d fs else fsShell fs) ++ ls) := by
      simp
    rw [hshape]
    by_cases hkept : fsKept compiled fs = true
    · rw [hkept, if_pos rfl, runLines_fsLines_absent ctx d fs _ g hk, ih]
    · rw [if_neg hkept, runLines_fsShell, ih]

theorem runLines_pSwitch_absent (ctx : VCtx) (compiled : List String)
    (d : List (Nat × List String)) (name : String) (avail : List FeatureSet) (ls : List Line)
    (g : List Bool) (hk : ctx.len ∉ dictKeys d) :
    runLines ctx (preprocessedSwitch compiled d name avail ++ ls) ⟨g, false⟩ =
      runLines ctx ls ⟨g, false⟩ := by
  by_cases hd : d.isEmpty
  · simp [preprocessedSwitch, hd]
  · have hshape : preprocessedSwitch compiled d name avail ++ ls =
        Line.comment name ::
          ((List.insertionSort fsLe avail).flatMap
            (fun fs => if fsKept compiled fs then featureSetLines d fs else fsShell fs) ++ ls) := by
      simp [preprocessedSwitch, hd]
    rw [hshape]
    have hstep : ∀ rest, runLines ctx (Line.comment name :: rest) ⟨g, false⟩ =
        runLines ctx rest ⟨g, false⟩ := by
      intro rest
      simp [runLines, stepLine]
    rw [hstep, runLines_fsBlocks_absent ctx compiled d _ ls g hk]

theorem Profile.sizeOf_pos (p : Profile) : 0 < sizeOf p := by
  cases p with
  | mk n l v e en ov fs par c i s d de =>
    simp only [Profile.mk.sizeOf_spec]
    omega

theorem runLines_body_master (ctx : VCtx) (compiled : List String) (sel : DictSel) :
    ∀ (n : Nat) (p : Profile), sizeOf p ≤ n →
      ∀ (avail : List FeatureSet) (rest : List Line) (g : List Bool),
      ((runLines ctx
          (preprocessAux compiled (get_verify_func_body p sel avail ++ rest) false)
          ⟨g, false⟩).1 =
        ((g.all id && verifySpec compiled ctx sel p avail) ||
          (runLines ctx (preprocessAux compiled rest false) ⟨g, false⟩).1)) ∧
      ((g.all id && verifySpec compiled ctx sel p avail) = false →
        (runLines ctx
          (preprocessAux compiled (get_verify_func_body p sel avail ++ rest) false)
          ⟨g, false⟩).2.2 =
          (runLines ctx (preprocessAux compiled rest false) ⟨g, false⟩).2.2) := by
  intro n
  induction n with
  | zero =>
    intro p hp
    exact absurd hp (by have := Profile.sizeOf_pos p; omega)
  | succ n ihn =>
    intro p hp avail rest g
    have hinner : ∀ (l : List Profile), (∀ x ∈ l, sizeOf x ≤ n) →
        ∀ (rest2 : List Line) (g2 : List Bool),
        ((runLines ctx
            (preprocessAux compiled
              (l.flatMap (fun pp => get_verify_func_body pp sel
                (availIntersection avail pp.availability)) ++ rest2) false)
            ⟨g2, false⟩).1 =
          ((g2.all id && l.any (fun pp => verifySpec compiled ctx sel pp
              (availIntersection avail pp.availability))) ||
            (runLines ctx (preprocessAux compiled rest2 false) ⟨g2, false⟩).1)) ∧
        ((g2.all id && l.any (fun pp => verifySpec compiled ctx sel pp
            (availIntersection avail pp.availability))) = false →
          (runLines ctx
            (preprocessAux compiled
              (l.flatMap (fun pp => get_verify_func_body pp sel
                (availIntersection avail pp.availability)) ++ rest2) false)
            ⟨g2, false⟩).2.2 =
            (runLines ctx (preprocessAux compiled rest2 false) ⟨g2, false⟩).2.2) := by
      intro l hl
      induction l with
      | nil => simp
      | cons x l ihl =>
        intro rest2 g2
        have hx : sizeOf x ≤ n := hl x (List.mem_cons_self x l)
        have hl' : ∀ y ∈ l, sizeOf y ≤ n := fun y hy => hl y (List.mem_cons_of_mem x hy)
        have hshape :
            ((x :: l).flatMap (fun pp => get_verify_func_body pp sel
              (availIntersection avail pp.availability)) ++ rest2) =
            (get_verify_func_body x sel (availIntersection avail x.availability) ++
              (l.flatMap (fun pp => get_verify_func_body pp sel
                (availIntersection avail pp.availability)) ++ rest2)) := by
          simp
        rw [hshape]
        have hhead := ihn x hx (availIntersection avail x.availability)
          (l.flatMap (fun pp => get_verify_func_body pp sel
            (availIntersection avail pp.availability)) ++ rest2) g2
        have htail := ihl hl' rest2 g2
        constructor
        · rw [hhead.1, htail.1]
          simp only [List.any_cons]
          cases hG : g2.all id <;>
            cases hX : verifySpec compiled ctx sel x (availIntersection avail x.availability) <;>
            cases hA : l.any (fun pp => verifySpec compiled ctx sel pp
              (availIntersection avail pp.availability)) <;>
            simp [hG, hX, hA]
        · intro hfalse
          simp only [List.any_cons] at hfalse
          have h1 : (g2.all id &&
              verifySpec compiled ctx sel x (availIntersection avail x.availability)) = false := by
            cases hG : g2.all id <;>
              cases hX : verifySpec compiled ctx sel x (availIntersection avail x.availability) <;>
              simp [hG, hX] at hfalse ⊢
          have h2 : (g2.all id && l.any (fun pp => verifySpec compiled ctx sel pp
              (availIntersection avail pp.availability))) = false := by
            cases hG : g2.all id <;>
              cases hA : l.any (fun pp => verifySpec compiled ctx sel pp
                (availIntersection avail pp.availability)) <;>
              simp [hG, hA] at hfalse ⊢
          rw [hhead.2 h1, htail.2 h2]
    rw [get_verify_func_body_eq, verifySpec_eq]
    cases hpp : p.parent_profiles with
    | none =>
      simp only [List.append_nil]
      rw [preprocess_func_switch]
      have hps := runLines_pSwitch ctx compiled (selDict sel p) p.name avail
        (preprocessAux compiled rest false) g
      constructor
      · rw [hps.1]
        simp [Bool.or_false]
      · intro hfalse
        apply hps.2
        simpa using hfalse
    | some pps =>
      have hmem : ∀ x ∈ List.insertionSort profLe pps, sizeOf x ≤ n := by
        intro x hx
        have hx' := (List.mem_insertionSort profLe).mp hx
        have := sizeOf_lt_of_mem_parents hpp hx'
        omega
      have hassoc :
          (get_verify_func_switch (selDict sel p) p.name avail ++
            (List.insertionSort profLe pps).flatMap (fun pp => get_verify_func_body pp sel
              (availIntersection avail pp.availability))) ++ rest =
          get_verify_func_switch (selDict sel p) p.name avail ++
            ((List.insertionSort profLe pps).flatMap (fun pp => get_verify_func_body pp sel
              (availIntersection avail pp.availability)) ++ rest) := by
        simp
      rw [hassoc, preprocess_func_switch]
      have hch := hinner (List.insertionSort profLe pps) hmem rest g
      have hps := runLines_pSwitch ctx compiled (selDict sel p) p.name avail
        (preprocessAux compiled
          ((List.insertionSort profLe pps).flatMap (fun pp => get_verify_func_body pp sel
            (availIntersection avail pp.availability)) ++ rest) false) g
      constructor
      · rw [hps.1, hch.1]
        cases hG : g.all id <;>
          cases hS : avail.any (fun fs => fsKept compiled fs && fsSat ctx fs &&
            bodyHit (selDict sel p) ctx) <;>
          cases hC : (List.insertionSort profLe pps).any (fun pp =>
            verifySpec compiled ctx sel pp (availIntersection avail pp.availability)) <;>
          simp [hG, hS, hC]
      · intro hfalse
        have h1 : (g.all id && avail.any (fun fs => fsKept compiled fs && fsSat ctx fs &&
            bodyHit (selDict sel p) ctx)) = false := by
          cases hG : g.all id <;>
            cases hS : avail.any (fun fs => fsKept compiled fs && fsSat ctx fs &&
              bodyHit (selDict sel p) ctx) <;>
            simp [hG, hS] at hfalse ⊢
        have h2 : (g.all id && (List.insertionSort profLe pps).any (fun pp =>
            verifySpec compiled ctx sel pp (availIntersection avail pp.availability))) = false := by
          cases hG : g.all id <;>
            cases hC : (List.insertionSort profLe pps).any (fun pp =>
              verifySpec compiled ctx sel pp (availIntersection avail pp.availability)) <;>
            simp [hG, hC] at hfalse ⊢
        rw [hps.2 h1, hch.2 h2]

theorem runLines_body_absent (ctx : VCtx) (compiled : List String) (sel : DictSel) :
    ∀ (n : Nat) (p : Profile), sizeOf p ≤ n →
      ∀ (avail : List FeatureSet) (rest : List Line) (g : List Bool),
      lenAbsent ctx sel p = true →
      runLines ctx
        (preprocessAux compiled (get_verify_func_body p sel avail ++ rest) false)
        ⟨g, false⟩ =
        runLines ctx (preprocessAux compiled rest false) ⟨g, false⟩ := by
  intro n
  induction n with
  | zero =>
    intro p hp
    exact absurd hp (by have := Profile.sizeOf_pos p; omega)
  | succ n ihn =>
    intro p hp avail rest g habs
    rw [lenAbsent_eq] at habs
    have hhead : ctx.len ∉ dictKeys (selDict sel p) := by
      rcases Bool.and_eq_true_iff.mp habs with ⟨h1, _⟩
      simpa using h1
    rw [get_verify_func_body_eq]
    cases hpp : p.parent_profiles with
    | none =>
      simp only [List.append_nil]
      rw [preprocess_func_switch]
      exact runLines_pSwitch_absent ctx compiled (selDict sel p) p.name avail _ g hhead
    | some pps =>
      rw [hpp] at habs
      rcases Bool.and_eq_true_iff.mp habs with ⟨_, hall⟩
      have hinner : ∀ (l : List Profile), (∀ x ∈ l, sizeOf x ≤ n ∧ lenAbsent ctx sel x = true) →
          ∀ (rest2 : List Line) (g2 : List Bool),
          runLines ctx
            (preprocessAux compiled
              (l.flatMap (fun pp => get_verify_func_body pp sel
                (availIntersection avail pp.availability)) ++ rest2) false)
            ⟨g2, false⟩ =
            runLines ctx (preprocessAux compiled rest2 false) ⟨g2, false⟩ := by
        intro l hl
        induction l with
        | nil => simp
        | cons x l ihl =>
          intro rest2 g2
          have hx := hl x (List.mem_cons_self x l)
          have hl' : ∀ y ∈ l, sizeOf y ≤ n ∧ lenAbsent ctx sel y = true :=
            fun y hy => hl y (List.mem_cons_of_mem x hy)
          have hshape :
              ((x :: l).flatMap (fun pp => get_verify_func_body pp sel
                (availIntersection avail pp.availability)) ++ rest2) =
              (get_verify_func_body x sel (availIntersection avail x.availability) ++
                (l.flatMap (fun pp => get_verify_func_body pp sel
                  (availIntersection avail pp.availability)) ++ rest2)) := by
            simp
          rw [hshape]
          rw [ihn x hx.1 (availIntersection avail x.availability) _ g2 hx.2]
          exact ihl hl' rest2 g2
      have hassoc :
          (get_verify_func_switch (selDict sel p) p.name avail ++
            (List.insertionSort profLe pps).flatMap (fun pp => get_verify_func_body pp sel
              (availIntersection avail pp.availability))) ++ rest =
          get_verify_func_switch (selDict sel p) p.name avail ++
            ((List.insertionSort profLe pps).flatMap (fun pp => get_verify_func_body pp sel
              (availIntersection avail pp.availability)) ++ rest) := by
        simp
      rw [hassoc, preprocess_func_switch]
      rw [runLines_pSwitch_absent ctx compiled (selDict sel p) p.name avail _ g hhead]
      apply hinner
      intro x hx
      have hx' := (List.mem_insertionSort profLe).mp hx
      have hsz := sizeOf_lt_of_mem_parents hpp hx'
      refine ⟨by omega, ?_⟩
      have := List.all_eq_true.mp hall x hx
      simpa using this

/-- The end-to-end characterization of the compiled verification
function's boolean result. -/
theorem runVerifyFunc_eq_spec (p : Profile) (sel : DictSel) (compiled : List String)
    (ctx : VCtx) :
    (runVerifyFunc p sel compiled ctx).1 = verifySpec compiled ctx sel p p.availability := by
  have h := (runLines_body_master ctx compiled sel (sizeOf p) p le_rfl p.availability [] []).1
  simp only [List.append_nil, preprocessAux, runLines] at h
  rw [runVerifyFunc, get_verify_func, preprocess]
  have happ : get_verify_func_body p sel p.availability ++ ([] : List Line) =
      get_verify_func_body p sel p.availability := by simp
  rw [← happ]
  simp only [RunSt.clean]
  rw [(runLines_body_master ctx compiled sel (sizeOf p) p le_rfl p.availability [] []).1]
  simp [preprocessAux, runLines]

/-- When no reachable dictionary has a bucket for the input length, the
compiled function returns false without executing a single string
comparison. -/
theorem runVerifyFunc_absent (p : Profile) (sel : DictSel) (compiled : List String)
    (ctx : VCtx) (habs : lenAbsent ctx sel p = true) :
    runVerifyFunc p sel compiled ctx = (false, 0) := by
  rw [runVerifyFunc, get_verify_func, preprocess]
  have happ : get_verify_func_body p sel p.availability ++ ([] : List Line) =
      get_verify_func_body p sel p.availability := by simp
  rw [← happ]
  simp only [RunSt.clean]
  rw [runLines_body_absent ctx compiled sel (sizeOf p) p le_rfl p.availability [] [] habs]
  simp [preprocessAux, runLines]

/-! ## Ancestor chains

The recursive traversal of `get_verify_func_body` is characterized by the
set of descending paths through `parent_profiles`: one guarded block is
emitted per distinct path from the profile to an ancestor, in
depth-first order with parents sorted by name, and the block's
availability is the accumulated pairwise intersection along the path. -/

/-- All descending paths through `parent_profiles` starting at `p` (each
beginning with `p` itself), parents visited in ascending name order —
one path per block emitted by `get_verify_func_body`. -/
def ancestorChains (p : Profile) : List (List Profile) :=
  [p] ::
  (match hpp : p.parent_profiles with
   | none => []
   | some pps =>
     (List.insertionSort profLe pps).attach.flatMap
       (fun x =>
         have : sizeOf x.1 < sizeOf p :=
           sizeOf_lt_of_mem_parents hpp ((List.mem_insertionSort profLe).mp x.2)
         (ancestorChains x.1).map (fun c => p :: c)))
termination_by sizeOf p

theorem ancestorChains_eq (p : Profile) :
    ancestorChains p =
      [p] ::
      (match p.parent_profiles with
       | none => []
       | some pps =>
         (List.insertionSort profLe pps).flatMap
           (fun pp => (ancestorChains pp).map (fun c => p :: c))) := by
  rw [ancestorChains]
  congr 1
  split
  · rename_i h
    simp [h]
  · rename_i pps h
    simp only [h]
    exact flatMap_attach (List.insertionSort profLe pps)
      (fun pp => (ancestorChains pp).map (fun c => p :: c))

theorem ancestorChains_head (p : Profile) :
    ∀ c ∈ ancestorChains p, ∃ rest, c = p :: rest := by
  intro c hc
  rw [ancestorChains_eq] at hc
  rcases List.mem_cons.mp hc with h | h
  · exact ⟨[], h⟩
  · cases hpp : p.parent_profiles with
    | none => rw [hpp] at h; simp at h
    | some pps =>
      rw [hpp] at h
      rcases List.mem_flatMap.mp h with ⟨pp, _, hmem⟩
      rcases List.mem_map.mp hmem with ⟨c', _, hc'⟩
      exact ⟨c', hc'.symm⟩

/-- The availability of the block emitted for the path `c` (the chain
starts at the profile itself, whose own availability is `avail0`): the
accumulated pairwise intersection along the path. -/
def chainAvail (avail0 : List FeatureSet) (c : List Profile) : List FeatureSet :=
  (c.drop 1).foldl (fun acc q => availIntersection acc q.availability) avail0

theorem flatMap_congr {α β : Type} {l : List α} {f g : α → List β}
    (h : ∀ x ∈ l, f x = g x) : l.flatMap f = l.flatMap g := by
  induction l with
  | nil => simp
  | cons a l ih =>
    simp only [List.flatMap_cons]
    rw [h a (List.mem_cons_self a l), ih (fun x hx => h x (List.mem_cons_of_mem a hx))]

theorem any_congr {α : Type} {l : List α} {f g : α → Bool}
    (h : ∀ x ∈ l, f x = g x) : l.any f = l.any g := by
  induction l with
  | nil => simp
  | cons a l ih =>
    simp only [List.any_cons]
    rw [h a (List.mem_cons_self a l), ih (fun x hx => h x (List.mem_cons_of_mem a hx))]

theorem body_eq_chains (sel : DictSel) :
    ∀ (n : Nat) (p : Profile), sizeOf p ≤ n → ∀ (avail0 : List FeatureSet),
    get_verify_func_body p sel avail0 =
      (ancestorChains p).flatMap (fun c =>
        get_verify_func_switch (selDict sel (c.getLastD p)) (c.getLastD p).name
          (chainAvail avail0 c)) := by
  intro n
  induction n with
  | zero =>
    intro p hp
    exact absurd hp (by have := Profile.sizeOf_pos p; omega)
  | succ n ihn =>
    intro p hp avail0
    rw [get_verify_func_body_eq, ancestorChains_eq]
    cases hpp : p.parent_profiles with
    | none =>
      simp [chainAvail]
    | some pps =>
      simp only [List.flatMap_cons]
      have hhead : get_verify_func_switch (selDict sel (([p] : List Profile).getLastD p))
          (([p] : List Profile).getLastD p).name (chainAvail avail0 [p]) =
          get_verify_func_switch (selDict sel p) p.name avail0 := by
        simp [chainAvail]
      rw [hhead]
      congr 1
      rw [List.bind_assoc]
      apply flatMap_congr
      intro pp hpp'
      have hsz : sizeOf pp ≤ n := by
        have := sizeOf_lt_of_mem_parents hpp ((List.mem_insertionSort profLe).mp hpp')
        omega
      rw [ihn pp hsz (availIntersection avail0 pp.availability)]
      rw [List.flatMap_map]
      apply flatMap_congr
      intro c hc
      rcases ancestorChains_head pp c hc with ⟨rest, hrest⟩
      subst hrest
      simp only [List.getLastD_cons, chainAvail, List.drop_one, List.tail_cons,
        List.foldl_cons]

theorem any_flatMap {α β : Type} (l : List α) (f : α → List β) (g : β → Bool) :
    (l.flatMap f).any g = l.any (fun x => (f x).any g) := by
  induction l with
  | nil => simp
  | cons a l ih => simp [List.any_append, ih]

theorem all_flatMap {α β : Type} (l : List α) (f : α → List β) (g : β → Bool) :
    (l.flatMap f).all g = l.all (fun x => (f x).all g) := by
  induction l with
  | nil => simp
  | cons a l ih => simp [List.all_append, ih]

theorem verifySpec_eq_chains (compiled : List String) (ctx : VCtx) (sel : DictSel) :
    ∀ (n : Nat) (p : Profile), sizeOf p ≤ n → ∀ (avail0 : List FeatureSet),
    verifySpec compiled ctx sel p avail0 =
      (ancestorChains p).any (fun c =>
        (chainAvail avail0 c).any (fun fs =>
          fsKept compiled fs && fsSat ctx fs && bodyHit (selDict sel (c.getLastD p)) ctx)) := by
  intro n
  induction n with
  | zero =>
    intro p hp
    exact absurd hp (by have := Profile.sizeOf_pos p; omega)
  | succ n ihn =>
    intro p hp avail0
    rw [verifySpec_eq, ancestorChains_eq]
    cases hpp : p.parent_profiles with
    | none =>
      simp [chainAvail]
    | some pps =>
      simp only [List.any_cons]
      have hhead : (chainAvail avail0 [p]).any (fun fs =>
          fsKept compiled fs && fsSat ctx fs &&
            bodyHit (selDict sel (([p] : List Profile).getLastD p)) ctx) =
          avail0.any (fun fs =>
            fsKept compiled fs && fsSat ctx fs && bodyHit (selDict sel p) ctx) := by
        simp [chainAvail]
      rw [hhead]
      congr 1
      rw [any_flatMap]
      apply any_congr
      intro pp hpp'
      have hsz : sizeOf pp ≤ n := by
        have := sizeOf_lt_of_mem_parents hpp ((List.mem_insertionSort profLe).mp hpp')
        omega
      rw [ihn pp hsz (availIntersection avail0 pp.availability)]
      rw [List.any_map]
      apply any_congr
      intro c hc
      rcases ancestorChains_head pp c hc with ⟨rest, hrest⟩
      subst hrest
      simp only [Function.comp, List.getLastD_cons, chainAvail, List.drop_one, List.tail_cons,
        List.foldl_cons]

theorem all_congr_members {α : Type} {l : List α} {f g : α → Bool}
    (h : ∀ x ∈ l, f x = g x) : l.all f = l.all g := by
  induction l with
  | nil => simp
  | cons a l ih =>
    simp only [List.all_cons]
    rw [h a (List.mem_cons_self a l), ih (fun x hx => h x (List.mem_cons_of_mem a hx))]

theorem lenAbsent_eq_chains (ctx : VCtx) (sel : DictSel) :
    ∀ (n : Nat) (p : Profile), sizeOf p ≤ n →
    lenAbsent ctx sel p =
      (ancestorChains p).all (fun c =>
        !(dictKeys (selDict sel (c.getLastD p))).contains ctx.len) := by
  intro n
  induction n with
  | zero =>
    intro p hp
    exact absurd hp (by have := Profile.sizeOf_pos p; omega)
  | succ n ihn =>
    intro p hp
    rw [lenAbsent_eq, ancestorChains_eq]
    cases hpp : p.parent_profiles with
    | none =>
      simp
    | some pps =>
      simp only [List.all_cons]
      congr 1
      rw [all_flatMap]
      apply all_congr_members
      intro pp hpp'
      have hsz : sizeOf pp ≤ n := by
        have := sizeOf_lt_of_mem_parents hpp ((List.mem_insertionSort profLe).mp hpp')
        omega
      rw [ihn pp hsz]
      rw [List.all_map]
      apply all_congr_members
      intro c hc
      rcases ancestorChains_head pp c hc with ⟨rest, hrest⟩
      subst hrest
      simp only [Function.comp, List.getLastD_cons]

/-! ## Claim theorems -/

/-- C4: for every profile, the generated ext-verify function sets both
outputs true and returns immediately when the profile has a promoted
OpenXR version and the negotiated runtime version is at least that
version, before any extension check; otherwise, when the profile names an
extension, `out_supported` is true exactly when the extension is compiled
into the build and `out_enabled` equals the runtime's extension-active
flag (both false when compiled out); and when the profile names no
extension, both outputs are unconditionally true. -/
theorem C4_ext_verify_semantics (p : Profile) (compiled enabled : List String) (version : Nat) :
    ((∃ ma mi, p.openxr_version_promoted = some (ma, mi) ∧
        XR_MAKE_VERSION ma mi ≤ version) →
      runExt compiled enabled version (get_verify_functions_ext p) = (true, true)) ∧
    ((¬ ∃ ma mi, p.openxr_version_promoted = some (ma, mi) ∧
        XR_MAKE_VERSION ma mi ≤ version) →
      (∀ e, p.extension_name = some e →
        runExt compiled enabled version (get_verify_functions_ext p) =
          (decide (e ∈ compiled), decide (e ∈ compiled) && decide (e ∈ enabled))) ∧
      (p.extension_name = none →
        runExt compiled enabled version (get_verify_functions_ext p) = (true, true))) := by
  constructor
  · rintro ⟨ma, mi, hprom, hver⟩
    rw [get_verify_functions_ext, hprom]
    cases p.extension_name <;> simp [runExt, hver]
  · intro hnot
    constructor
    · intro e he
      rw [get_verify_functions_ext, he]
      cases hprom : p.openxr_version_promoted with
      | none =>
        simp only [List.nil_append, runExt]
        by_cases hc : e ∈ compiled
        · simp [hc]
        · simp [hc]
      | some v =>
        cases v with
        | mk ma mi =>
          have hver : ¬ XR_MAKE_VERSION ma mi ≤ version := fun hv =>
            hnot ⟨ma, mi, hprom, hv⟩
          simp only [List.cons_append, List.nil_append, runExt, hver, if_false]
          by_cases hc : e ∈ compiled
          · simp [hc, runExt]
          · simp [hc, runExt]
    · intro he
      rw [get_verify_functions_ext, he]
      cases hprom : p.openxr_version_promoted with
      | none => simp [runExt]
      | some v =>
        cases v with
        | mk ma mi =>
          have hver : ¬ XR_MAKE_VERSION ma mi ≤ version := fun hv =>
            hnot ⟨ma, mi, hprom, hv⟩
          simp [runExt, hver]

theorem C4_ext_verify_semantics_witness :
    runExt [] [] (XR_MAKE_VERSION 1 1)
      (get_verify_functions_ext
        (Profile.mk "p" "P" "p" "E" (some "EXT") (some (1, 1)) [] none [] [] [] [] [])) =
      (true, true) :=
  (C4_ext_verify_semantics
      (Profile.mk "p" "P" "p" "E" (some "EXT") (some (1, 1)) [] none [] [] [] [] [])
      [] [] (XR_MAKE_VERSION 1 1)).1
    ⟨1, 1, rfl, le_refl _⟩

/-- C6: the binding records (subaction path, SteamVR path with
component-name suffixing, localized name, OpenXR path list, and the
input / dpad_activate / output values) and the dpad records emitted by
the full-schema generator (`generate_bindings_c`) and by the
reduced-schema generator (`ovrd_generate_bindings_c`) are identical in
content, so the two front-ends cannot diverge in binding content. -/
theorem C6_schemas_identical_content :
    (∀ (components : List Component) (c : Component),
      oxr_binding_record components c = ovrd_binding_record components c) ∧
    (∀ ident : Identifier, oxr_dpad_record ident = ovrd_dpad_record ident) := by
  constructor
  · intro components c
    rw [oxr_binding_record, ovrd_binding_record]
  · intro ident
    rw [oxr_dpad_record, ovrd_dpad_record]

/-- C7: emission resolves a `dpad_emulation` activate name to a component
of the same profile matched jointly by identifier name, subaction path
and identifier json path, emitting that component's `monado_binding` as
the `dpad_activate` value; failure to find such a component is a fatal
generation error in both generators, never a silent default to zero. -/
theorem C7_dpad_activate_resolution (components : List Component) (c : Component)
    (mb : String) (de : DpadEmulationDesc) (nm : String)
    (hmb : c.monado_binding = some mb) (hde : c.dpad_emulation = some de)
    (hact : de.activate = some nm) :
    (∀ ac, find_component_in_list_by_name nm components c.subaction_path
        c.identifier_json_path = some ac →
      ac ∈ components ∧ ac.identifier_name = nm ∧
      ac.subaction_path = c.subaction_path ∧
      ac.identifier_json_path = c.identifier_json_path ∧
      ∃ r, oxr_binding_record components c = .ok r ∧
        ovrd_binding_record components c = .ok r ∧
        ∃ iv ov, r.values = some (iv, pyStr ac.monado_binding, ov)) ∧
    (find_component_in_list_by_name nm components c.subaction_path
        c.identifier_json_path = none →
      (∀ c' ∈ components, ¬(c'.identifier_name = nm ∧
        c'.subaction_path = c.subaction_path ∧
        c'.identifier_json_path = c.identifier_json_path)) ∧
      (∃ msg, oxr_binding_record components c = .error msg) ∧
      (∃ msg, ovrd_binding_record components c = .error msg)) := by
  constructor
  · intro ac hfind
    have hmem := List.mem_of_find?_eq_some hfind
    have hpred := List.find?_some hfind
    have hname : ac.identifier_name = nm := by
      rcases Bool.and_eq_true_iff.mp hpred with ⟨h1, _⟩
      rcases Bool.and_eq_true_iff.mp h1 with ⟨h2, _⟩
      simpa using h2
    have hsub : ac.subaction_path = c.subaction_path := by
      rcases Bool.and_eq_true_iff.mp hpred with ⟨h1, _⟩
      rcases Bool.and_eq_true_iff.mp h1 with ⟨_, h3⟩
      simpa using h3
    have hjson : ac.identifier_json_path = c.identifier_json_path := by
      rcases Bool.and_eq_true_iff.mp hpred with ⟨_, h4⟩
      simpa using h4
    refine ⟨hmem, hname, hsub, hjson, ?_⟩
    have hres : resolveDpadActivate components c = .ok (pyStr ac.monado_binding) := by
      simp only [resolveDpadActivate, hde, hact, hfind]
    refine ⟨{ subaction_path := c.subaction_path
              steamvr_path := steamvrPathOf c
              localized_name := c.subpath_localized_name
              paths := c.full_openxr_paths
              values := some
                ((if c.input_role then mb else "0"),
                 pyStr ac.monado_binding,
                 (if c.output_role then mb else "0")) }, ?_, ?_, ?_⟩
    · rw [oxr_binding_record, hmb, hres]
      rfl
    · rw [ovrd_binding_record, hmb, hres]
      rfl
    · exact ⟨_, _, rfl⟩
  · intro hfind
    constructor
    · intro c' hc' hmatch
      rcases hmatch with ⟨h1, h2, h3⟩
      have := List.find?_eq_none.mp hfind c' hc'
      apply this
      simp [h1, h2, h3]
    · have hres : ∃ msg, resolveDpadActivate components c = .error msg := by
        simp only [resolveDpadActivate, hde, hact, hfind]
        exact ⟨_, rfl⟩
      rcases hres with ⟨msg, hres⟩
      constructor
      · refine ⟨msg, ?_⟩
        rw [oxr_binding_record, hmb, hres]
        rfl
      · refine ⟨msg, ?_⟩
        rw [ovrd_binding_record, hmb, hres]
        rfl

/-- A concrete activate component for exercising the dpad resolution. -/
def witActivate : Component :=
  { component_name := "click"
    subaction_path := "/user/hand/left"
    steamvr_path := "/input/a"
    subpath_localized_name := "A"
    monado_binding := some "XRT_INPUT_A_CLICK"
    dpad_emulation := none
    identifier_json_path := "/input/a"
    identifier_name := "dpad_click"
    full_openxr_paths := []
    input_role := true
    output_role := false }

/-- A concrete component whose dpad emulation names `witActivate`. -/
def witRef : Component :=
  { component_name := "value"
    subaction_path := "/user/hand/left"
    steamvr_path := "/input/thumbstick"
    subpath_localized_name := "Thumbstick"
    monado_binding := some "XRT_INPUT_THUMBSTICK"
    dpad_emulation := some { activate := some "dpad_click" }
    identifier_json_path := "/input/a"
    identifier_name := "thumbstick"
    full_openxr_paths := []
    input_role := true
    output_role := false }

theorem C7_dpad_activate_resolution_witness :
    witActivate ∈ [witActivate, witRef] ∧ witActivate.identifier_name = "dpad_click" ∧
    witActivate.subaction_path = witRef.subaction_path ∧
    witActivate.identifier_json_path = witRef.identifier_json_path ∧
    ∃ r, oxr_binding_record [witActivate, witRef] witRef = .ok r ∧
      ovrd_binding_record [witActivate, witRef] witRef = .ok r ∧
      ∃ iv ov, r.values = some (iv, pyStr witActivate.monado_binding, ov) :=
  (C7_dpad_activate_resolution [witActivate, witRef] witRef "XRT_INPUT_THUMBSTICK"
    { activate := some "dpad_click" } "dpad_click" rfl rfl rfl).1 witActivate (by decide)

/-- C1: for a resolved availability containing both a version-only
feature set and an extension-requiring one, `get_verify_func_switch`
emits the feature sets as separate alternative guard blocks; each
extension-requiring block is wrapped in a preprocessor conditional on
exactly the `OXR_HAVE_` flags of its own extensions, so that compiling an
extension out removes exactly that block's extension guard — including
its runtime reference to the extension flag — and never a version-only
block, and every entry whose qualifying feature set is a pure version
requirement still matches with the extension compiled out. -/
theorem C1_version_ext_guard_blocks (d : List (Nat × List String)) (name : String)
    (avail : List FeatureSet) (compiled : List String) (fsv fse : FeatureSet)
    (hv : fsv ∈ avail) (hv_ext : fsv.required_extensions = [])
    (he : fse ∈ avail) (he_ext : ¬fse.required_extensions.isEmpty) :
    (preprocess compiled (get_verify_func_switch d name avail) =
      (if d.isEmpty then []
       else Line.comment name ::
         (List.insertionSort fsLe avail).flatMap
           (fun fs => if fsKept compiled fs then featureSetLines d fs else fsShell fs))) ∧
    (fsKept compiled fsv = true) ∧
    (Line.ppIf (List.insertionSort strLe fse.required_extensions) ∈ featureSetLines d fse ∧
     Line.extIf (List.insertionSort strLe fse.required_extensions) ∈ featureSetLines d fse ∧
     Line.ppEndif (List.insertionSort strLe fse.required_extensions) ∈ featureSetLines d fse) ∧
    (∀ l ∈ fsShell fse, l.isPP = false ∧ ∀ ex, l ≠ Line.extIf ex) ∧
    (∀ ctx : VCtx, fsSat ctx fsv = true → bodyHit d ctx = true →
      (runLines ctx (preprocess compiled (get_verify_func_switch d name avail))
        ⟨[], false⟩).1 = true) := by
  refine ⟨?_, ?_, ?_, ?_, ?_⟩
  · rw [preprocess]
    have h := preprocess_func_switch compiled d name avail []
    simpa [preprocessedSwitch, preprocessAux] using h
  · simp [fsKept, hv_ext]
  · refine ⟨?_, ?_, ?_⟩ <;> simp [featureSetLines, he_ext]
  · intro l hl
    rw [fsShell] at hl
    cases hfv : fse.required_version with
    | none => rw [hfv] at hl; simp at hl
    | some v =>
      cases v with
      | mk ma mi =>
        rw [hfv] at hl
        rcases List.mem_cons.mp hl with h | h
        · subst h
          exact ⟨rfl, fun ex h => Line.noConfusion h⟩
        · rcases List.mem_singleton.mp h with h
          subst h
          exact ⟨rfl, fun ex h => Line.noConfusion h⟩
  · intro ctx hsat hhit
    rw [preprocess]
    have happ : get_verify_func_switch d name avail ++ ([] : List Line) =
        get_verify_func_switch d name avail := by simp
    rw [← happ, preprocess_func_switch]
    have hps := (runLines_pSwitch ctx compiled d name avail
      (preprocessAux compiled [] false) []).1
    rw [hps]
    have hany : avail.any (fun fs => fsKept compiled fs && fsSat ctx fs && bodyHit d ctx) =
        true := by
      rw [List.any_eq_true]
      refine ⟨fsv, hv, ?_⟩
      have hkv : fsKept compiled fsv = true := by simp [fsKept, hv_ext]
      simp [hkv, hsat, hhit]
    simp [hany]

theorem C1_version_ext_guard_blocks_witness :
    (runLines ⟨XR_MAKE_VERSION 1 1, [], "x", 1⟩
      (preprocess []
        (get_verify_func_switch [(1, ["x"])] "test"
          [⟨some (1, 1), []⟩, ⟨none, ["XR_EXT_foo"]⟩]))
      ⟨[], false⟩).1 = true :=
  (C1_version_ext_guard_blocks [(1, ["x"])] "test"
    [⟨some (1, 1), []⟩, ⟨none, ["XR_EXT_foo"]⟩] []
    ⟨some (1, 1), []⟩ ⟨none, ["XR_EXT_foo"]⟩
    (by decide) rfl (by decide) (by decide)).2.2.2.2
    ⟨XR_MAKE_VERSION 1 1, [], "x", 1⟩ (by decide) (by decide)

/-- C2: the compiled path-verification function returns true if and only
if some emitted feature-set guard — surviving preprocessing and satisfied
by the runtime version and enabled extensions — belongs to a block (of
the profile itself or an ancestor, with the accumulated availability)
whose dictionary has the input string as a candidate in the bucket keyed
by the given length; and when no reachable dictionary has a bucket for
the length, the function falls through the switch defaults and returns
false without executing a single string comparison. The function is a
pure function of its inputs by construction. -/
theorem C2_verify_function_semantics (p : Profile) (sel : DictSel) (compiled : List String)
    (ctx : VCtx) :
    ((runVerifyFunc p sel compiled ctx).1 = true ↔
      ∃ c ∈ ancestorChains p, ∃ fs ∈ chainAvail p.availability c,
        fsKept compiled fs = true ∧ fsSat ctx fs = true ∧
          ctx.str ∈ caseCandidates (selDict sel (c.getLastD p)) ctx.len) ∧
    ((∀ c ∈ ancestorChains p, ctx.len ∉ dictKeys (selDict sel (c.getLastD p))) →
      runVerifyFunc p sel compiled ctx = (false, 0)) := by
  constructor
  · rw [runVerifyFunc_eq_spec, verifySpec_eq_chains compiled ctx sel (sizeOf p) p le_rfl]
    simp [List.any_eq_true, Bool.and_eq_true, bodyHit, and_assoc]
  · intro h
    apply runVerifyFunc_absent
    rw [lenAbsent_eq_chains ctx sel (sizeOf p) p le_rfl, List.all_eq_true]
    intro c hc
    have hch := h c hc
    rw [List.getLastD_eq_getLast?] at hch
    simpa using hch

/-- A concrete one-component profile with a single unconditional
availability and one subpath of length 1. -/
def witP0 : Profile :=
  Profile.mk "/interaction_profiles/test/p" "Test P" "test_p" "XRT_DEVICE_TEST"
    none none [⟨none, []⟩] none [] [] [(1, ["x"])] [] []

theorem C2_verify_function_semantics_witness :
    (runVerifyFunc witP0 DictSel.subpaths [] ⟨0, [], "x", 1⟩).1 = true := by
  apply (C2_verify_function_semantics witP0 DictSel.subpaths [] ⟨0, [], "x", 1⟩).1.mpr
  refine ⟨[witP0], ?_, ⟨none, []⟩, ?_, ?_, ?_, ?_⟩
  · rw [ancestorChains_eq]
    simp [witP0, Profile.parent_profiles]
  · simp [chainAvail, witP0, Profile.availability, Profile.feature_sets]
  · decide
  · decide
  · simp [witP0, selDict, Profile.subpaths_by_length, caseCandidates, dictGet, List.find?]

/-- C3: the verification-function body is exactly one guarded block for
the profile itself and, recursively, one block per distinct
parent-profile path to each ancestor — parents processed in ascending
name order — and the block for the ancestor at the end of a path is
guarded by the profile's own availability intersected pairwise with the
availabilities accumulated along the path. -/
theorem C3_ancestor_traversal_blocks (p : Profile) (sel : DictSel) :
    (get_verify_func_body p sel p.availability =
      (ancestorChains p).flatMap (fun c =>
        get_verify_func_switch (selDict sel (c.getLastD p)) (c.getLastD p).name
          (chainAvail p.availability c))) ∧
    (∀ pps, p.parent_profiles = some pps →
      List.Sorted profLe (List.insertionSort profLe pps)) := by
  constructor
  · exact body_eq_chains sel (sizeOf p) p le_rfl p.availability
  · intro pps _
    exact List.sorted_insertionSort profLe pps

/-- A concrete parent profile. -/
def witA : Profile :=
  Profile.mk "/interaction_profiles/test/a" "Test A" "test_a" "XRT_DEVICE_TEST_A"
    none none [⟨none, []⟩] none [] [] [(1, ["y"])] [] []

/-- A concrete child profile with one parent. -/
def witP1 : Profile :=
  Profile.mk "/interaction_profiles/test/p1" "Test P1" "test_p1" "XRT_DEVICE_TEST_P1"
    none none [⟨none, []⟩] (some [witA]) [] [] [(1, ["x"])] [] []

theorem C3_ancestor_traversal_blocks_witness :
    (get_verify_func_body witP1 DictSel.subpaths witP1.availability =
      (ancestorChains witP1).flatMap (fun c =>
        get_verify_func_switch (selDict DictSel.subpaths (c.getLastD witP1))
          (c.getLastD witP1).name (chainAvail witP1.availability c))) ∧
    List.Sorted profLe (List.insertionSort profLe [witA]) :=
  ⟨(C3_ancestor_traversal_blocks witP1 DictSel.subpaths).1,
   (C3_ancestor_traversal_blocks witP1 DictSel.subpaths).2 [witA] rfl⟩

/-! ## Duplicate candidates under the same guard structure (C5) -/

/-- One enclosing guard of an emitted string comparison: a runtime
version check or a runtime extension check. -/
inductive GFrame where
  | ver (major minor : Nat)
  | ext (exts : List String)
deriving DecidableEq, Repr

/-- Scan the emitted lines collecting, for every emitted `strcmp`, its
top-level guard structure: the stack of enclosing version/extension
guards and the enclosing `case` length, together with the candidate
string compared. -/
def guardedCasesAux : List Line → List GFrame → Option Nat →
    List (List GFrame × Option Nat × String)
  | [], _, _ => []
  | .vIf ma mi :: ls, st, cl => guardedCasesAux ls (GFrame.ver ma mi :: st) cl
  | .extIf e :: ls, st, cl => guardedCasesAux ls (GFrame.ext e :: st) cl
  | .close :: ls, st, cl => guardedCasesAux ls st.tail cl
  | .caseOpen n :: ls, st, _ => guardedCasesAux ls st (some n)
  | .caseClose :: ls, st, _ => guardedCasesAux ls st none
  | .strcmpRet s :: ls, st, cl => (st, cl, s) :: guardedCasesAux ls st cl
  | _ :: ls, st, cl => guardedCasesAux ls st cl

/-- All (guard structure, case length, candidate) occurrences of string
comparisons in a profile's generated verification function. The claim
"the same candidate string never appears twice under the same top-level
guard structure" is `(guardedCases p sel).Nodup`. -/
def guardedCases (p : Profile) (sel : DictSel) :
    List (List GFrame × Option Nat × String) :=
  guardedCasesAux (get_verify_func p sel) [] none

/-- The shared ancestor of the diamond. -/
def witG : Profile :=
  Profile.mk "/interaction_profiles/test/g" "Test G" "test_g" "XRT_DEVICE_TEST_G"
    none none [⟨none, []⟩] none [] [] [(1, ["x"])] [] []

/-- Left parent of the diamond, inheriting from `witG`. -/
def witDA : Profile :=
  Profile.mk "/interaction_profiles/test/a" "Test DA" "test_da" "XRT_DEVICE_TEST_DA"
    none none [⟨none, []⟩] (some [witG]) [] [] [] [] []

/-- Right parent of the diamond, inheriting from `witG`. -/
def witDB : Profile :=
  Profile.mk "/interaction_profiles/test/b" "Test DB" "test_db" "XRT_DEVICE_TEST_DB"
    none none [⟨none, []⟩] (some [witG]) [] [] [] [] []

/-- The diamond: a profile with two parents that share one ancestor. -/
def witPD : Profile :=
  Profile.mk "/interaction_profiles/test/p" "Test PD" "test_pd" "XRT_DEVICE_TEST_PD"
    none none [⟨none, []⟩] (some [witDA, witDB]) [] [] [] [] []

theorem witPD_lines : get_verify_func witPD DictSel.subpaths =
    [Line.comment "/interaction_profiles/test/g", Line.switchOpen, Line.caseOpen 1,
     Line.strcmpRet "x", Line.caseClose, Line.defaultBreak, Line.switchClose,
     Line.comment "/interaction_profiles/test/g", Line.switchOpen, Line.caseOpen 1,
     Line.strcmpRet "x", Line.caseClose, Line.defaultBreak, Line.switchClose] := by
  have hsort : List.insertionSort profLe [witDA, witDB] = [witDA, witDB] := by
    simp only [List.insertionSort, List.orderedInsert]
    rw [if_pos (by simp [profLe, witDA, witDB, Profile.name]; decide)]
  have havail : availIntersection [(⟨none, []⟩ : FeatureSet)] [⟨none, []⟩] =
      [⟨none, []⟩] := by decide
  have havailG : availIntersection [(⟨none, []⟩ : FeatureSet)] witG.availability =
      [⟨none, []⟩] := by
    rw [show witG.availability = [(⟨none, []⟩ : FeatureSet)] from rfl]
    exact havail
  have havailDA : availIntersection [(⟨none, []⟩ : FeatureSet)] witDA.availability =
      [⟨none, []⟩] := by
    rw [show witDA.availability = [(⟨none, []⟩ : FeatureSet)] from rfl]
    exact havail
  have havailDB : availIntersection [(⟨none, []⟩ : FeatureSet)] witDB.availability =
      [⟨none, []⟩] := by
    rw [show witDB.availability = [(⟨none, []⟩ : FeatureSet)] from rfl]
    exact havail
  have hG : get_verify_func_body witG DictSel.subpaths [(⟨none, []⟩ : FeatureSet)] =
      [Line.comment "/interaction_profiles/test/g", Line.switchOpen, Line.caseOpen 1,
       Line.strcmpRet "x", Line.caseClose, Line.defaultBreak, Line.switchClose] := by
    rw [get_verify_func_body_eq]
    simp only [show witG.parent_profiles = none from rfl,
      show selDict DictSel.subpaths witG = [(1, ["x"])] from rfl,
      show witG.name = "/interaction_profiles/test/g" from rfl, List.append_nil]
    simp [get_verify_func_switch, featureSetLines, get_verify_switch_body, dictKeys, dictGet,
      caseCandidates, List.insertionSort, List.orderedInsert, List.find?, natLe]
  have hDA : get_verify_func_body witDA DictSel.subpaths [(⟨none, []⟩ : FeatureSet)] =
      [Line.comment "/interaction_profiles/test/g", Line.switchOpen, Line.caseOpen 1,
       Line.strcmpRet "x", Line.caseClose, Line.defaultBreak, Line.switchClose] := by
    rw [get_verify_func_body_eq]
    simp only [show witDA.parent_profiles = some [witG] from rfl,
      show selDict DictSel.subpaths witDA = [] from rfl,
      List.insertionSort, List.orderedInsert, List.flatMap_cons, List.flatMap_nil,
      List.append_nil, havailG]
    rw [hG]
    simp [get_verify_func_switch]
  have hDB : get_verify_func_body witDB DictSel.subpaths [(⟨none, []⟩ : FeatureSet)] =
      [Line.comment "/interaction_profiles/test/g", Line.switchOpen, Line.caseOpen 1,
       Line.strcmpRet "x", Line.caseClose, Line.defaultBreak, Line.switchClose] := by
    rw [get_verify_func_body_eq]
    simp only [show witDB.parent_profiles = some [witG] from rfl,
      show selDict DictSel.subpaths witDB = [] from rfl,
      List.insertionSort, List.orderedInsert, List.flatMap_cons, List.flatMap_nil,
      List.append_nil, havailG]
    rw [hG]
    simp [get_verify_func_switch]
  rw [get_verify_func, get_verify_func_body_eq]
  simp only [show witPD.parent_profiles = some [witDA, witDB] from rfl,
    show selDict DictSel.subpaths witPD = [] from rfl,
    show witPD.availability = [(⟨none, []⟩ : FeatureSet)] from rfl,
    hsort, List.flatMap_cons, List.flatMap_nil, List.append_nil, havailDA, havailDB]
  rw [hDA, hDB]
  simp [get_verify_func_switch]

/-- C5 counterexample: in a diamond-shaped inheritance DAG the shared
ancestor's block is emitted once per path, so the same candidate string
appears twice under the identical (here empty) top-level guard
structure: the generated matcher violates the claimed invariant. -/
theorem C5_duplicate_counterexample :
    ¬ (guardedCases witPD DictSel.subpaths).Nodup := by
  have h : guardedCases witPD DictSel.subpaths =
      [([], some 1, "x"), ([], some 1, "x")] := by
    rw [guardedCases, witPD_lines]
    rfl
  rw [h]
  decide

/-- C5 amended: within a single emitted switch no case compares the same
candidate twice provided the source length bucket is duplicate-free (the
emitted candidates of a case are a sorted permutation of the bucket);
across blocks, however, a candidate may recur under an identical guard
structure when the inheritance DAG reaches an ancestor along more than
one path (see the counterexample). -/
theorem C5_per_switch_nodup (d : List (Nat × List String)) (L : Nat)
    (h : (dictGet d L).Nodup) : (caseCandidates d L).Nodup := by
  rw [caseCandidates]
  exact (List.perm_insertionSort strLe (dictGet d L)).nodup_iff.mpr h

theorem C5_per_switch_nodup_witness :
    ((dictGet [(1, ["x", "y"])] 1).Nodup) ∧ (caseCandidates [(1, ["x", "y"])] 1).Nodup :=
  ⟨by decide, C5_per_switch_nodup [(1, ["x", "y"])] 1 (by decide)⟩

/-- C8: generation is deterministic in its input — the generators are
pure functions of the loaded `Bindings` value, so two runs on the same
input produce identical output — and every ordering the generators use
is fixed: length buckets are emitted in strictly ascending length order,
candidate strings in lexicographic order within each bucket, feature
sets in the total order given by `FeatureSet.as_tuple` (the order
`fsLe`), and parent profiles in ascending name order (`profLe`). -/
theorem C8_deterministic_ordering :
    (∀ b : Bindings, generate_bindings_c b = generate_bindings_c b) ∧
    (∀ d : List (Nat × List String),
      List.Pairwise (· < ·) (List.insertionSort natLe (dictKeys d))) ∧
    (∀ (d : List (Nat × List String)) (L : Nat), List.Sorted strLe (caseCandidates d L)) ∧
    (∀ avail : List FeatureSet, List.Sorted fsLe (List.insertionSort fsLe avail)) ∧
    (∀ pps : List Profile, List.Sorted profLe (List.insertionSort profLe pps)) := by
  refine ⟨fun b => rfl, ?_, ?_, ?_, ?_⟩
  · intro d
    have hs : List.Sorted natLe (List.insertionSort natLe (dictKeys d)) :=
      List.sorted_insertionSort natLe (dictKeys d)
    have hn : (List.insertionSort natLe (dictKeys d)).Nodup :=
      (List.perm_insertionSort natLe (dictKeys d)).nodup_iff.mpr (List.nodup_dedup _)
    have hcomb := List.Pairwise.and hs hn
    exact hcomb.imp (fun h => lt_of_le_of_ne h.1 h.2)
  · intro d L
    exact List.sorted_insertionSort strLe (dictGet d L)
  · intro avail
    exact List.sorted_insertionSort fsLe avail
  · intro pps
    exact List.sorted_insertionSort profLe pps

/-! ## Error behaviour of the full-schema generator (C9, C10) -/

theorem writeAll_mem {steps : List (List Chunk × Option String)} {x : Chunk}
    (hx : x ∈ (writeAll steps).1) : ∃ s ∈ steps, x ∈ s.1 := by
  induction steps with
  | nil => simp [writeAll] at hx
  | cons s steps ih =>
    cases s with
    | mk cs err =>
      cases err with
      | some e =>
        rw [writeAll] at hx
        exact ⟨(cs, some e), List.mem_cons_self _ _, hx⟩
      | none =>
        rw [writeAll] at hx
        rcases List.mem_append.mp hx with h | h
        · exact ⟨(cs, none), List.mem_cons_self _ _, h⟩
        · rcases ih h with ⟨s', hs', hxs'⟩
          exact ⟨s', List.mem_cons_of_mem _ hs', hxs'⟩

theorem writeAll_none {steps : List (List Chunk × Option String)}
    (h : (writeAll steps).2 = none) : ∀ s ∈ steps, s.2 = none := by
  induction steps with
  | nil => simp
  | cons s steps ih =>
    intro s' hs'
    cases s with
    | mk cs err =>
      cases err with
      | some e => rw [writeAll] at h; simp at h
      | none =>
        rw [writeAll] at h
        simp only at h
        rcases List.mem_cons.mp hs' with h' | h'
        · subst h'; rfl
        · exact ih h s' h'

theorem epilogue_not_in_component_chunks (components : List Component) (i : Nat)
    (c : Component) : Chunk.epilogue ∉ (oxr_component_chunks components i c).1 := by
  rw [oxr_component_chunks]
  cases c.monado_binding with
  | none => simp
  | some mb =>
    cases resolveDpadActivate components c with
    | error e => simp
    | ok dv => simp

theorem epilogue_not_in_profile_chunks (p : Profile) :
    Chunk.epilogue ∉ (oxr_profile_chunks p).1 := by
  rw [oxr_profile_chunks]
  have hbind : Chunk.epilogue ∉
      (writeAll (p.components.enum.map
        (fun ci => oxr_component_chunks p.components ci.1 ci.2))).1 := by
    intro hmem
    rcases writeAll_mem hmem with ⟨s, hs, hxs⟩
    rcases List.mem_map.mp hs with ⟨ci, _, hci⟩
    rw [← hci] at hxs
    exact epilogue_not_in_component_chunks p.components ci.1 ci.2 hxs
  cases herr : (writeAll (p.components.enum.map
      (fun ci => oxr_component_chunks p.components ci.1 ci.2))).2 with
  | some e =>
    simp only [herr]
    intro hmem
    rcases List.mem_cons.mp hmem with h | h
    · exact Chunk.noConfusion h
    · exact hbind h
  | none =>
    simp only [herr]
    cases hprom : p.openxr_version_promoted with
    | none =>
      simp only
      intro hmem
      rcases List.mem_cons.mp hmem with h | h
      · exact Chunk.noConfusion h
      · rcases List.mem_append.mp h with h' | h'
        · rcases List.mem_append.mp h' with h'' | h''
          · exact hbind h''
          · rcases List.mem_singleton.mp h'' with h3
            exact Chunk.noConfusion h3
        · rcases List.mem_append.mp h' with h'' | h''
          · rcases List.mem_singleton.mp h'' with h3
            exact Chunk.noConfusion h3
          · by_cases hd : (p.identifiers.filterMap oxr_dpad_record).isEmpty
            · rw [if_pos hd] at h''
              rcases List.mem_singleton.mp h'' with h3
              exact Chunk.noConfusion h3
            · rw [if_neg hd] at h''
              rcases List.mem_singleton.mp h'' with h3
              exact Chunk.noConfusion h3
    | some v =>
      cases v with
      | mk ma mi =>
        simp only
        intro hmem
        rcases List.mem_cons.mp hmem with h | h
        · exact Chunk.noConfusion h
        · rcases List.mem_append.mp h with h' | h'
          · rcases List.mem_append.mp h' with h'' | h''
            · rcases List.mem_append.mp h'' with h3 | h3
              · exact hbind h3
              · rcases List.mem_singleton.mp h3 with h4
                exact Chunk.noConfusion h4
            · by_cases hd : (p.identifiers.filterMap oxr_dpad_record).isEmpty
              · rw [if_pos hd] at h''
                rcases List.mem_append.mp h'' with h3 | h3
                · rcases List.mem_singleton.mp h3 with h4
                  exact Chunk.noConfusion h4
                · rcases List.mem_singleton.mp h3 with h4
                  exact Chunk.noConfusion h4
              · rw [if_neg hd] at h''
                rcases List.mem_append.mp h'' with h3 | h3
                · rcases List.mem_singleton.mp h3 with h4
                  exact Chunk.noConfusion h4
                · rcases List.mem_singleton.mp h3 with h4
                  exact Chunk.noConfusion h4
          · simp at h'

theorem generate_bindings_c_ne_nil (b : Bindings) : (generate_bindings_c b).1 ≠ [] := by
  rw [generate_bindings_c]
  cases h : (writeAll (b.profiles.map oxr_profile_chunks)).2 <;> simp [h]

theorem generate_bindings_c_err (b : Bindings) :
    (generate_bindings_c b).2 = (writeAll (b.profiles.map oxr_profile_chunks)).2 := by
  rw [generate_bindings_c]
  cases h : (writeAll (b.profiles.map oxr_profile_chunks)).2 <;> simp [h]

/-- C9 amended: a fatal error aborts the run before the output is
finalized — the closing epilogue is never written — but the output
already written before the error remains in place (the file content is
never empty, starting with the header). -/
theorem C9_error_aborts_before_finalization (b : Bindings)
    (h : (generate_bindings_c b).2.isSome) :
    Chunk.epilogue ∉ (generate_bindings_c b).1 ∧ (generate_bindings_c b).1 ≠ [] := by
  refine ⟨?_, generate_bindings_c_ne_nil b⟩
  rw [generate_bindings_c_err] at h
  obtain ⟨e, he⟩ := Option.isSome_iff_exists.mp h
  rw [generate_bindings_c]
  simp only [he]
  intro hmem
  rcases List.mem_append.mp hmem with h' | h'
  · rcases List.mem_cons.mp h' with h'' | h''
    · exact Chunk.noConfusion h''
    · rcases List.mem_append.mp h'' with h3 | h3
      · rcases List.mem_map.mp h3 with ⟨q, _, h4⟩
        exact Chunk.noConfusion h4
      · rcases List.mem_singleton.mp h3 with h4
        exact Chunk.noConfusion h4
  · rcases writeAll_mem h' with ⟨s, hs, hxs⟩
    rcases List.mem_map.mp hs with ⟨q, _, hq⟩
    rw [← hq] at hxs
    exact epilogue_not_in_profile_chunks q hxs

/-- A component whose dpad emulation names a nonexistent activate
component. -/
def witBadC : Component :=
  { component_name := "value"
    subaction_path := "/user/hand/left"
    steamvr_path := "/input/t"
    subpath_localized_name := "T"
    monado_binding := some "XRT_INPUT_T"
    dpad_emulation := some { activate := some "missing" }
    identifier_json_path := "/input/t"
    identifier_name := "t"
    full_openxr_paths := []
    input_role := true
    output_role := false }

/-- A profile whose only component carries the unresolvable reference. -/
def witBadP : Profile :=
  Profile.mk "/interaction_profiles/test/bad" "Bad" "test_bad" "XRT_DEVICE_BAD"
    none (some (1, 0)) [⟨none, []⟩] none [witBadC] [] [] [] []

/-- A bindings set on which generation hits a fatal error. -/
def witBad : Bindings := ⟨[witBadP]⟩

theorem witBad_err_isSome : (generate_bindings_c witBad).2.isSome := by
  have hfind : find_component_in_list_by_name "missing" [witBadC] "/user/hand/left"
      "/input/t" = none := by decide
  have hres : resolveDpadActivate [witBadC] witBadC =
      .error ("failed to find dpad activate component " ++ "missing" ++ " for " ++
        "/user/hand/left") := by
    simp only [resolveDpadActivate,
      show witBadC.dpad_emulation = some { activate := some "missing" } from rfl,
      show witBadC.subaction_path = "/user/hand/left" from rfl,
      show witBadC.identifier_json_path = "/input/t" from rfl, hfind]
  have hcomp : (oxr_component_chunks [witBadC] 0 witBadC).2 =
      some ("failed to find dpad activate component " ++ "missing" ++ " for " ++
        "/user/hand/left") := by
    rw [oxr_component_chunks]
    simp only [show witBadC.monado_binding = some "XRT_INPUT_T" from rfl, hres]
  have hprof : (oxr_profile_chunks witBadP).2 =
      some ("failed to find dpad activate component " ++ "missing" ++ " for " ++
        "/user/hand/left") := by
    rw [oxr_profile_chunks]
    simp only [show witBadP.components = [witBadC] from rfl]
    rw [show ([witBadC].enum.map (fun ci => oxr_component_chunks [witBadC] ci.1 ci.2)) =
        [oxr_component_chunks [witBadC] 0 witBadC] from rfl]
    cases hstep : oxr_component_chunks [witBadC] 0 witBadC with
    | mk cs err =>
      rw [hstep] at hcomp
      simp only at hcomp
      subst hcomp
      rw [writeAll]
  rw [generate_bindings_c_err]
  rw [show witBad.profiles = [witBadP] from rfl]
  simp only [List.map_cons, List.map_nil]
  cases hstep : oxr_profile_chunks witBadP with
  | mk cs err =>
    rw [hstep] at hprof
    simp only at hprof
    subst hprof
    rw [writeAll]
    rfl

/-- C9 counterexample: on a bindings set whose only profile carries an
unresolvable dpad activate reference, generation fails with an error and
the output written so far is not empty — a partial output is left in
place, contradicting the claim that no partial output file remains. -/
theorem C9_leftover_output_counterexample :
    (generate_bindings_c witBad).2.isSome ∧ (generate_bindings_c witBad).1 ≠ [] :=
  ⟨witBad_err_isSome, generate_bindings_c_ne_nil witBad⟩

theorem C9_error_aborts_before_finalization_witness :
    Chunk.epilogue ∉ (generate_bindings_c witBad).1 ∧ (generate_bindings_c witBad).1 ≠ [] :=
  C9_error_aborts_before_finalization witBad witBad_err_isSome

theorem profile_chunks_ok_promoted (p : Profile)
    (h : (oxr_profile_chunks p).2 = none) : p.openxr_version_promoted.isSome := by
  rw [oxr_profile_chunks] at h
  cases herr : (writeAll (p.components.enum.map
      (fun ci => oxr_component_chunks p.components ci.1 ci.2))).2 with
  | some e => rw [herr] at h; simp at h
  | none =>
    rw [herr] at h
    cases hprom : p.openxr_version_promoted with
    | none => rw [hprom] at h; simp at h
    | some v => simp

/-- C10: the full-schema generator unconditionally subscripts
`profile.openxr_version_promoted`, so emission succeeds only when every
profile carries a present promoted-version pair; for a bindings set
containing a profile with the field absent, emission fails after part of
the output (beginning with the header) has already been written. -/
theorem C10_promoted_version_required (b : Bindings) :
    ((generate_bindings_c b).2 = none →
      ∀ p ∈ b.profiles, p.openxr_version_promoted.isSome) ∧
    ((∃ p ∈ b.profiles, p.openxr_version_promoted = none) →
      (generate_bindings_c b).2.isSome ∧ (generate_bindings_c b).1 ≠ []) := by
  constructor
  · intro h p hp
    rw [generate_bindings_c_err] at h
    have hstep := writeAll_none h (oxr_profile_chunks p) (List.mem_map_of_mem _ hp)
    exact profile_chunks_ok_promoted p hstep
  · rintro ⟨p, hp, hnone⟩
    refine ⟨?_, generate_bindings_c_ne_nil b⟩
    by_cases hgen : (generate_bindings_c b).2 = none
    · exfalso
      have h1 : p.openxr_version_promoted.isSome := by
        rw [generate_bindings_c_err] at hgen
        exact profile_chunks_ok_promoted p
          (writeAll_none hgen (oxr_profile_chunks p) (List.mem_map_of_mem _ hp))
      rw [hnone] at h1
      simp at h1
    · exact Option.ne_none_iff_isSome.mp hgen

/-- A profile with no promoted OpenXR version and no components. -/
def witNoProm : Profile :=
  Profile.mk "/interaction_profiles/test/noprom" "NoProm" "test_noprom" "XRT_DEVICE_NOPROM"
    none none [⟨none, []⟩] none [] [] [] [] []

theorem C10_promoted_version_required_witness :
    (generate_bindings_c ⟨[witNoProm]⟩).2.isSome ∧
      (generate_bindings_c ⟨[witNoProm]⟩).1 ≠ [] :=
  (C10_promoted_version_required ⟨[witNoProm]⟩).2
    ⟨witNoProm, List.mem_singleton.mpr rfl, rfl⟩
